import Mathlib

/-!
Verification of the policy-as-code reconciliation core of this repository.

The embedding follows the Python sources:
  * `examples/tools/policy_lint.py`   (validator / linter)
  * `examples/tools/apply_config.py`  (ring eligibility + reconciliation engine)
  * `examples/tools/drift_check.py`   (drift detector)

Policy documents are JSON values loaded with `json.loads`; we model them with
the `Value` inductive below (JSON numbers restricted to integers, which is
all the claims need).  Python-level behaviours that matter to the claims are
modelled explicitly: `dict.get`, truthiness (`x or {}`), `==` on arbitrary
JSON data (order-insensitive on dicts, `True == 1`), and the fact that
calling `.get`/`.keys`/`.items` on a non-dict raises `AttributeError`
(modelled as `Option`/`Except` failure).
-/

namespace CWTLM

/-- JSON-like value as produced by `json.loads` (numbers restricted to
integers; Python `bool` kept separate from `int` but comparable to it,
as in Python). -/
inductive Value where
  | null : Value
  | bool : Bool → Value
  | num : Int → Value
  | str : String → Value
  | list : List Value → Value
  | obj : List (String × Value) → Value

/-- A policy document / JSON object: association list of fields, as a
Python `Dict[str, Any]`. -/
abbrev JObj := List (String × Value)

/-- `d.get(k)` on a Python dict: first binding of the key, if any. -/
def jLookup {α : Type} : List (String × α) → String → Option α
  | [], _ => none
  | (k, v) :: rest, key => if k = key then some v else jLookup rest key

/-- Python truthiness of a JSON value: `None`, `False`, `0`, `""`, `[]`
and `{}` are falsy, everything else truthy. -/
def pyTruthy : Value → Bool
  | .null => false
  | .bool b => b
  | .num n => n != 0
  | .str s => s ≠ ""
  | .list xs => !xs.isEmpty
  | .obj l => !l.isEmpty

/-- `policy.get(f) or {}`: the field's value if present and truthy,
otherwise an empty dict. -/
def pyOrEmpty (o : Option Value) : Value :=
  match o with
  | some v => if pyTruthy v then v else .obj []
  | none => .obj []

/-- `(policy.get(f) or {}).get(k)`: `none` models the `AttributeError`
raised when the field is a truthy non-dict; otherwise `some` of the
dict-lookup result. -/
def getThenGet (pol : JObj) (f k : String) : Option (Option Value) :=
  match pyOrEmpty (jLookup pol f) with
  | .obj l => some (jLookup l k)
  | _ => none

/-- `is_policy_allowed_in_ring` from `examples/tools/apply_config.py`
(lines 88-95).  `none` models the `AttributeError` raised when the
`scope` field is a truthy non-dict; `some b` is the returned bool. -/
def isPolicyAllowedInRing (policy : JObj) (ring : String) : Option Bool :=
  match getThenGet policy "scope" "supported_rings" with
  | none => none
  | some supported =>
    match supported with
    | none => some true            -- key absent: default allow
    | some .null => some true      -- JSON null reads back as Python None
    | some (.list xs) => some (xs.any fun e =>
        match e with
        | .str t => t = ring       -- Python ==: a str only equals a str
        | _ => false)
    | some _ => some false         -- present but not a list

/-! ### Python `==` on JSON data

Python equality on values loaded from JSON: dicts compare as maps (same
size and every key of the left dict present in the right with `==` values
— key order irrelevant), lists compare pointwise, and `True == 1`,
`False == 0` across bool/int. -/

mutual
/-- Python `==` on JSON values. -/
def pyEq : Value → Value → Bool
  | .null, .null => true
  | .bool a, .bool b => a == b
  | .bool a, .num n => (if a then (1 : Int) else 0) == n
  | .num n, .bool b => n == (if b then (1 : Int) else 0)
  | .num a, .num b => a == b
  | .str a, .str b => a == b
  | .list xs, .list ys => pyEqList xs ys
  | .obj l1, .obj l2 => l1.length == l2.length && pyEqEntries l1 l2
  | _, _ => false
termination_by a b => sizeOf a + sizeOf b
/-- Pointwise Python `==` on lists. -/
def pyEqList : List Value → List Value → Bool
  | [], [] => true
  | x :: xs, y :: ys => pyEq x y && pyEqList xs ys
  | _, _ => false
termination_by xs ys => sizeOf xs + sizeOf ys
/-- Every entry of the first dict is present (by key) in the second with a
`==` value. -/
def pyEqEntries : List (String × Value) → List (String × Value) → Bool
  | [], _ => true
  | (k, v) :: rest, l2 => pyEqFind k v l2 && pyEqEntries rest l2
termination_by l1 l2 => sizeOf l1 + sizeOf l2
/-- Look up key `k` in `l2` and compare its value with `v`. -/
def pyEqFind : String → Value → List (String × Value) → Bool
  | _, _, [] => false
  | k, v, (k2, v2) :: rest => if k = k2 then pyEq v v2 else pyEqFind k v rest
termination_by _ v l2 => sizeOf v + sizeOf l2
end

/-! ### Well-formedness

Values produced by `json.loads` never contain duplicate object keys
(a Python dict cannot); `wfV` captures that invariant. -/

mutual
/-- All object key lists in the value are duplicate-free (true of every
value produced by `json.loads`). -/
def wfV : Value → Bool
  | .obj l => decide ((l.map Prod.fst).Nodup) && wfEntries l
  | .list xs => wfList xs
  | _ => true
/-- `wfV` on every value of an entry list. -/
def wfEntries : List (String × Value) → Bool
  | [] => true
  | (_, v) :: rest => wfV v && wfEntries rest
/-- `wfV` on every element of a list. -/
def wfList : List Value → Bool
  | [] => true
  | x :: xs => wfV x && wfList xs
end

/-! ### Drift normalization

`normalize_settings` from `examples/tools/drift_check.py` (lines 46-56):
dict keys are recursively sorted (Python `sorted`, i.e. a stable sort by
string order), list order is preserved. -/

/-- Lexicographic `<` on character lists (the order Python string `<`
uses over the code points at hand). -/
def ltChars : List Char → List Char → Bool
  | [], [] => false
  | [], _ :: _ => true
  | _ :: _, [] => false
  | a :: as, b :: bs => if a < b then true else if b < a then false else ltChars as bs

/-- String `<` for key sorting. -/
def keyLt (a b : String) : Bool := ltChars a.data b.data

/-- Stable insertion of an entry into a key-sorted entry list (an equal
key goes after the existing ones, as Python's stable `sorted`). -/
def insSorted (x : String × Value) : List (String × Value) → List (String × Value)
  | [] => [x]
  | y :: ys => if keyLt x.1 y.1 then x :: y :: ys else y :: insSorted x ys

/-- Sort an entry list by key (stable), modelling `sorted(settings.keys())`. -/
def sortKeys (l : List (String × Value)) : List (String × Value) :=
  l.foldl (fun acc x => insSorted x acc) []

mutual
/-- `normalize_settings`: recursively sort object keys, keep list order. -/
def normalize : Value → Value
  | .obj l => .obj (sortKeys (normEntries l))
  | .list xs => .list (normList xs)
  | .null => .null
  | .bool b => .bool b
  | .num n => .num n
  | .str s => .str s
/-- `normalize` on every value of an entry list. -/
def normEntries : List (String × Value) → List (String × Value)
  | [] => []
  | (k, v) :: rest => (k, normalize v) :: normEntries rest
/-- `normalize` on every element of a list. -/
def normList : List Value → List Value
  | [] => []
  | x :: xs => normalize x :: normList xs
end

/-! ### The semantic-version regex

`SEMVER_RE = ^(0|[1-9]\d*)\.(0|[1-9]\d*)\.(0|[1-9]\d*)(?:[-+].+)?$`
from `examples/tools/policy_lint.py` line 23, embedded as an executable
anchored matcher with Python `re` semantics: each numeral group matches
the maximal run of digits in front of a non-digit (the regex is
deterministic there), `.` in the suffix group `[-+].+` matches any
character except a newline, and the final `$` matches at the end of the
string or just before one newline that ends the string. -/

/-- The regex class `\d`, on its ASCII fragment `0`-`9`.  Python's
un-flagged `str` pattern `\d` also matches every non-ASCII Unicode
decimal digit (category Nd, e.g. U+0662), which this model does not
enumerate: the matcher below agrees with `SEMVER_RE` on every string
free of non-ASCII decimal digits, and the C6 statements quantify over
ASCII strings accordingly. -/
def isDig (c : Char) : Bool := '0' ≤ c && c ≤ '9'

/-- The regex group `(0|[1-9]\d*)` applied to a maximal digit run:
either the single digit `0`, or a run led by `1`-`9`. -/
def numOK : List Char → Bool
  | [] => false
  | [c] => c == '0' || ('1' ≤ c && c ≤ '9')
  | c :: _ :: _ => '1' ≤ c && c ≤ '9'

/-- Match of the `$`-free part of `SEMVER_RE` against a whole character
list: the three numeral groups each take the maximal digit run in front
of a non-digit, then the optional suffix is `-` or `+` followed by at
least one character, none of which is a newline (`.` does not match
`\n`). -/
def semverBody (cs : List Char) : Bool :=
  numOK (cs.takeWhile isDig) &&
  match cs.dropWhile isDig with
  | c1 :: r2 =>
    c1 == '.' && (numOK (r2.takeWhile isDig) &&
      match r2.dropWhile isDig with
      | c2 :: r4 =>
        c2 == '.' && (numOK (r4.takeWhile isDig) &&
          match r4.dropWhile isDig with
          | [] => true
          | c3 :: t => (c3 == '-' || c3 == '+') &&
              (!t.isEmpty && t.all (fun ch => ch != '\n')))
      | [] => false)
  | [] => false

/-- Anchored match of `SEMVER_RE` on a character list.  `$` matches at
the end of the string or just before a newline that ends it, and no
element of the pattern can consume a newline, so the regex matches `cs`
iff the body matches all of `cs`, or `cs` ends in a newline and the
body matches all of `cs` without that newline. -/
def semverMatchL (cs : List Char) : Bool :=
  semverBody cs ||
  (match cs.getLast? with
   | some c => c == '\n' && semverBody cs.dropLast
   | none => false)

/-- `SEMVER_RE.match(version) is not None` on a string. -/
def semverAccepts (s : String) : Bool := semverMatchL s.data

/-! ### The policy linter

`lint_policy` from `examples/tools/policy_lint.py` (lines 57-125).
Each `_expect` call is identified by a `LintMsg` constructor (the Python
message strings' rendering is not itself modelled, only which violation is
reported with which data).  `lint_policy` can raise `AttributeError`
(on `metadata.keys()`, `scope.get`, `telemetry.items()`, `tc.get` applied
to truthy non-dicts); a raise is modelled as `Except.error`, losing the
accumulated list exactly as the Python exception does. -/

/-- One violation reported by `lint_policy`, one constructor per
`_expect` call site, in source order. -/
inductive LintMsg where
  | missingTop (fs : List String)
  | nameStr
  | platformAllowed
  | versionSemver
  | metadataObject
  | settingsObject
  | missingMeta (fs : List String)
  | riskAllowed
  | rolloutAllowed
  | approverGroups
  | scopeObject
  | ringsList
  | ringsInvalid (bad : List Value)
  | telemetryObject
  | telemetryRange (k : String)
  | bgRollout
  | bgRisk
  | bgEmergency
  | bgAutoExpire
  | bgMaxDuration

/-- `_expect(cond, ..., msg, errors)`: append `msg` when `cond` fails. -/
def expectB (cond : Bool) (m : LintMsg) : List LintMsg :=
  if cond then [] else [m]

/-- `REQUIRED_TOP_LEVEL`, in the sorted order the report uses. -/
def REQUIRED_TOP_SORTED : List String :=
  ["metadata", "name", "platform", "settings", "version"]

/-- `REQUIRED_METADATA`, in the sorted order the report uses. -/
def REQUIRED_META_SORTED : List String :=
  ["approver_groups", "change_ticket_required", "owner", "risk_level", "rollout_strategy"]

/-- `ALLOWED_PLATFORMS`. -/
def ALLOWED_PLATFORMS : List String :=
  ["windows", "macos", "linux", "ios", "android", "cross-platform"]

/-- `ALLOWED_RISK`. -/
def ALLOWED_RISK : List String := ["low", "medium", "high", "critical"]

/-- `ALLOWED_ROLLOUT`. -/
def ALLOWED_ROLLOUT : List String := ["ringed", "manual-only"]

/-- `ALLOWED_RINGS`. -/
def ALLOWED_RINGS : List String := ["qa", "security", "early", "global"]

/-- `BREAK_GLASS_NAMES`. -/
def BREAK_GLASS_NAMES : List String :=
  ["break-glass-exception", "break_glass_exception"]

/-- Is the value an object (Python `isinstance(-, dict)`). -/
def Value.isObj : Value → Bool
  | .obj _ => true
  | _ => false

/-- Python `v in {set of strings}`: only a `str` can equal a `str`. -/
def isStrIn (v : Value) (set : List String) : Bool :=
  match v with
  | .str s => set.contains s
  | _ => false

/-- Python `isinstance(v, int)` on a JSON value (a Python `bool` is an
`int`). -/
def pyIsIntB : Value → Bool
  | .num _ => true
  | .bool _ => true
  | _ => false

/-- The integer a JSON value stands for in an `int` comparison
(`True` is `1`, `False` is `0`). -/
def pyIntVal : Value → Int
  | .num n => n
  | .bool b => if b then 1 else 0
  | _ => 0

/-- Top-level fields required but missing, in sorted order
(`REQUIRED_TOP_LEVEL - set(policy.keys())`). -/
def topMissing (p : JObj) : List String :=
  REQUIRED_TOP_SORTED.filter (fun k => !(p.map Prod.fst).contains k)

/-- ASCII whitespace (what `str.strip()` removes on the names at hand). -/
def isWs (c : Char) : Bool :=
  c = ' ' || c = '\t' || c = '\n' || c = '\r' || c = '\x0b' || c = '\x0c'

/-- `name must be a non-empty string`: `isinstance(name, str) and
name.strip()` — the stripped string is truthy iff some character is not
whitespace. -/
def nameOkB : Option Value → Bool
  | some (.str s) => s.data.any (fun c => !isWs c)
  | _ => false

/-- `platform in ALLOWED_PLATFORMS`. -/
def platformOkB (o : Option Value) : Bool :=
  match o with
  | some v => isStrIn v ALLOWED_PLATFORMS
  | none => false

/-- `isinstance(version, str) and SEMVER_RE.match(version) is not None`. -/
def versionOkB : Option Value → Bool
  | some (.str s) => semverAccepts s
  | _ => false

/-- The telemetry loop body: a numeric value (Python `int`, `float` or
`bool`) must lie in `[0, 1]`; other values are ignored. -/
def telemetryErrs : List (String × Value) → List LintMsg
  | [] => []
  | (k, v) :: rest =>
    (match v with
     | .num n => expectB (0 ≤ n && n ≤ 1) (.telemetryRange k)
     | .bool _ => []          -- float(True)=1.0, float(False)=0.0: in range
     | _ => []) ++ telemetryErrs rest

/-- The `scope` block of `lint_policy` (lines 94-102).  A truthy non-dict
`scope` raises `AttributeError` at `scope.get` (after appending the
`scope must be an object` violation, which the raise then discards). -/
def scopeChecks (scope : Value) : Except String (List LintMsg) :=
  if pyTruthy scope then
    match scope with
    | .obj sl =>
      .ok (match jLookup sl "supported_rings" with
        | none => []
        | some .null => []           -- `is not None` reads JSON null as None
        | some v =>
          expectB (match v with | .list xs => !xs.isEmpty | _ => false) .ringsList ++
          (match v with
           | .list xs =>
             let bad := xs.filter (fun r => !isStrIn r ALLOWED_RINGS)
             expectB bad.isEmpty (.ringsInvalid bad)
           | _ => []))
    | _ => .error "AttributeError"
  else .ok []

/-- The `telemetry_expectations` block (lines 104-109).  A truthy
non-dict raises at `telemetry.items()`. -/
def telemetryChecks (telemetry : Value) : Except String (List LintMsg) :=
  if pyTruthy telemetry then
    match telemetry with
    | .obj tl => .ok (telemetryErrs tl)
    | _ => .error "AttributeError"
  else .ok []

/-- The checks after the top-level-fields gate and before the break-glass
section (lines 66-109).  A truthy non-dict `metadata` raises at
`set(metadata.keys())` (line 82), discarding everything collected so far. -/
def mainChecks (p : JObj) : Except String (List LintMsg) :=
  let metadata := pyOrEmpty (jLookup p "metadata")
  let settings := pyOrEmpty (jLookup p "settings")
  let e1 := expectB (nameOkB (jLookup p "name")) .nameStr
  let e2 := expectB (platformOkB (jLookup p "platform")) .platformAllowed
  let e3 := expectB (versionOkB (jLookup p "version")) .versionSemver
  let e4 := expectB metadata.isObj .metadataObject
  let e5 := expectB settings.isObj .settingsObject
  match metadata with
  | .obj ml =>
    let mm := REQUIRED_META_SORTED.filter (fun k => !(ml.map Prod.fst).contains k)
    let e6 := expectB mm.isEmpty (.missingMeta mm)
    let e7 := match jLookup ml "risk_level" with
      | some v => expectB (isStrIn v ALLOWED_RISK) .riskAllowed
      | none => []
    let e8 := match jLookup ml "rollout_strategy" with
      | some v => expectB (isStrIn v ALLOWED_ROLLOUT) .rolloutAllowed
      | none => []
    let e9 := match jLookup ml "approver_groups" with
      | some v => expectB (match v with | .list xs => !xs.isEmpty | _ => false) .approverGroups
      | none => []
    match scopeChecks (pyOrEmpty (jLookup p "scope")) with
    | .error e => .error e
    | .ok sErrs =>
      match telemetryChecks (pyOrEmpty (jLookup p "telemetry_expectations")) with
      | .error e => .error e
      | .ok tErrs =>
        .ok (e1 ++ e2 ++ e3 ++ e4 ++ e5 ++ e6 ++ e7 ++ e8 ++ e9 ++ sErrs ++ tErrs)
  | _ => .error "AttributeError"

/-- `metadata.get(key) == s0` for a string constant (Python `==`: only a
`str` can equal a `str`). -/
def mdStrIs (l : List (String × Value)) (key s0 : String) : Bool :=
  match jLookup l key with
  | some (.str t) => t = s0
  | _ => false

/-- `d.get(key) is True` (identity with the `True` singleton). -/
def mdTrueIs (l : List (String × Value)) (key : String) : Bool :=
  match jLookup l key with
  | some (.bool true) => true
  | _ => false

/-- `isinstance(tc.get("max_duration_minutes"), int) and 1 <=
tc["max_duration_minutes"] <= 240`. -/
def maxDurationOk (tl : List (String × Value)) : Bool :=
  match jLookup tl "max_duration_minutes" with
  | some v => pyIsIntB v && (1 ≤ pyIntVal v && pyIntVal v ≤ 240)
  | none => false

/-- The break-glass guardrail section (lines 111-123): triggered only when
`name` is a string in `BREAK_GLASS_NAMES`.  When it runs, `metadata` is
necessarily a dict (otherwise `lint_policy` already raised at line 82).
A truthy non-dict `time_constraints` raises at `tc.get` (line 122). -/
def bgChecks (p : JObj) : Except String (List LintMsg) :=
  match jLookup p "name" with
  | some (.str s) =>
    if BREAK_GLASS_NAMES.contains s then
      let mChecks := match pyOrEmpty (jLookup p "metadata") with
        | .obj ml =>
          expectB (mdStrIs ml "rollout_strategy" "manual-only") .bgRollout ++
          expectB (mdStrIs ml "risk_level" "critical") .bgRisk ++
          expectB (mdTrueIs ml "emergency_use_only") .bgEmergency
        | _ => []                    -- `if isinstance(metadata, dict)` guard
      let tc := pyOrEmpty (jLookup p "time_constraints")
      let autoExp := expectB (match tc with
        | .obj tl => mdTrueIs tl "auto_expire"
        | _ => false) .bgAutoExpire
      match tc with
      | .obj tl => .ok (mChecks ++ autoExp ++ expectB (maxDurationOk tl) .bgMaxDuration)
      | _ => .error "AttributeError"
    else .ok []
  | _ => .ok []

/-- `lint_policy`: the top-level-fields check short-circuits with exactly
one violation; otherwise all remaining checks accumulate. -/
def lintPolicy (p : JObj) : Except String (List LintMsg) :=
  let missing := topMissing p
  if missing.isEmpty then
    match mainChecks p with
    | .error e => .error e
    | .ok main =>
      match bgChecks p with
      | .error e => .error e
      | .ok bg => .ok (main ++ bg)
  else .ok [.missingTop missing]

/-! ### The reconciliation engine

`apply_all` from `examples/tools/apply_config.py` (lines 98-129).  A
connector is a pair of operations; each can raise, modelled by
`Except.error`.  Inside `apply_all` only the `apply_policy` call is inside
the `try` block: an exception from `get_current_policy` (line 114) or from
the eligibility check propagates out of the loop. -/

/-- Per-policy outcome of one reconciliation attempt (`ApplyResult`
dataclass).  The `policy_name` is whatever `pol.get("name", "unknown")`
returned, hence a `Value`. -/
structure ApplyResult where
  policy_name : Value
  status : String
  detail : String

/-- The connector capability interface: fetch the backend's current state
for a name, and apply a policy.  Either call may raise. -/
structure Connector where
  getCurrent : Value → Except String (Option JObj)
  applyPolicy : JObj → Except String ApplyResult

/-- `pol.get("name", "unknown")`. -/
def nameOf (pol : JObj) : Value := (jLookup pol "name").getD (.str "unknown")

/-- `pol.get("settings", {})`. -/
def desiredOf (pol : JObj) : Value := (jLookup pol "settings").getD (.obj [])

/-- The `try: results.append(conn.apply_policy(pol)) except ...` block
(lines 124-127): an exception becomes a `failed` result. -/
def tryApply (conn : Connector) (pol : JObj) : Except String ApplyResult :=
  match conn.applyPolicy pol with
  | .ok r => .ok r
  | .error e => .ok ⟨nameOf pol, "failed", e⟩

/-- The fetch/compare/apply tail of the loop body (lines 113-127).  The
fetch is *outside* the `try`, so a fetch exception propagates
(`Except.error`). -/
def fetchApply (conn : Connector) (pol : JObj) : Except String ApplyResult :=
  match conn.getCurrent (nameOf pol) with
  | .error e => .error e
  | .ok current =>
    match current with
    | some cur =>
      if pyEq ((jLookup cur "settings").getD (.obj [])) (desiredOf pol) then
        .ok ⟨nameOf pol, "no_change", "already compliant"⟩
      else
        tryApply conn pol
    | none => tryApply conn pol

/-- `md.get("emergency_use_only") is True`. -/
def emergencyFlag (ev : Option Value) : Bool :=
  match ev with
  | some (.bool true) => true
  | _ => false

/-- One iteration of the `apply_all` loop (lines 101-127): eligibility
check, emergency-use-only guardrail, then fetch/apply. -/
def applyStep (conn : Connector) (ring : String) (pol : JObj) : Except String ApplyResult :=
  match isPolicyAllowedInRing pol ring with
  | none => .error "AttributeError"
  | some false => .ok ⟨nameOf pol, "skipped", "not allowed in ring=" ++ ring⟩
  | some true =>
    match getThenGet pol "metadata" "emergency_use_only" with
    | none => .error "AttributeError"
    | some ev =>
      if emergencyFlag ev && ring != "break-glass" then
        .ok ⟨nameOf pol, "skipped", "emergency-use-only policy"⟩
      else fetchApply conn pol

/-- `apply_all`: the per-policy loop in input order.  An uncaught
exception aborts the whole batch (the accumulated results are lost, as in
Python). -/
def applyAll (conn : Connector) (policies : List JObj) (ring : String) :
    Except String (List ApplyResult) :=
  match policies with
  | [] => .ok []
  | pol :: rest =>
    match applyStep conn ring pol with
    | .error e => .error e
    | .ok r =>
      match applyAll conn rest ring with
      | .error e => .error e
      | .ok rs => .ok (r :: rs)

/-- Modelled from the spec: the repository's `Connector` class is a
placeholder (its `get_current_policy` always returns `None`), so the
backend semantics needed by the idempotence claim is taken from §4.4 of
the spec: `fetch_current` returns the currently stored settings for a
name (absent if none), and `apply` idempotently stores the desired
settings, reporting `created`/`updated`, which the engine records as
`applied`.  The backend state maps policy names to their stored
settings. -/
def specBackend (st : JObj) : Connector where
  getCurrent := fun n => .ok (match n with
    | .str s => (jLookup st s).map (fun setts => [("settings", setts)])
    | _ => none)
  applyPolicy := fun pol => .ok ⟨nameOf pol, "applied", "created or updated"⟩

/-- Modelled from the spec: the backend state after a successful `apply`
of a policy — the policy's desired settings are now stored under its
name. -/
def specApplyState (st : JObj) (pol : JObj) : JObj :=
  match nameOf pol with
  | .str s => (s, desiredOf pol) :: st
  | _ => st

/-! ### The drift detector

`compare` and `normalize_settings` from `examples/tools/drift_check.py`
(lines 46-88).  `desired` and `actual` are both mappings from policy name
to a policy/snapshot object (`Dict[str, Dict[str, Any]]`). -/

/-- `DriftItem` dataclass. -/
structure DriftItem where
  status : String
  desired : Option Value := none
  actual : Option Value := none

/-- Body of the first `compare` loop (desired names: missing or
drifted). -/
def compareStepD (actual : List (String × JObj))
    (st : List (String × DriftItem) × Nat) (nd : String × JObj) :
    List (String × DriftItem) × Nat :=
  match jLookup actual nd.1 with
  | none => (st.1 ++ [(nd.1, ⟨"missing_in_actual", none, none⟩)], 1)
  | some a =>
    let dS := normalize ((jLookup nd.2 "settings").getD (.obj []))
    let aS := normalize ((jLookup a "settings").getD (.obj []))
    if pyEq dS aS then st
    else (st.1 ++ [(nd.1, ⟨"settings_drift", some dS, some aS⟩)], 1)

/-- Body of the second `compare` loop (extra names in actual). -/
def compareStepE (desired : List (String × JObj))
    (st : List (String × DriftItem) × Nat) (na : String × JObj) :
    List (String × DriftItem) × Nat :=
  match jLookup desired na.1 with
  | none => (st.1 ++ [(na.1, ⟨"extra_in_actual", none, none⟩)], 1)
  | some _ => st

/-- `compare(desired, actual) -> (drift, rc)`. -/
def compare (desired actual : List (String × JObj)) :
    List (String × DriftItem) × Nat :=
  actual.foldl (compareStepE desired) (desired.foldl (compareStepD actual) ([], 0))

/-! ### Helper notions and lemmas -/

/-- The field, if present and truthy, is a dict — the condition under
which `(policy.get(f) or {}).get(...)` does not raise. -/
def fieldOkObj (pol : JObj) (f : String) : Bool :=
  match jLookup pol f with
  | some v => !(pyTruthy v) || v.isObj
  | none => true

theorem getThenGet_total (pol : JObj) (f k : String) (h : fieldOkObj pol f = true) :
    ∃ ov, getThenGet pol f k = some ov := by
  unfold fieldOkObj at h
  unfold getThenGet pyOrEmpty
  cases hf : jLookup pol f with
  | none => exact ⟨none, rfl⟩
  | some v =>
    simp only [hf] at h ⊢
    cases ht : pyTruthy v with
    | false =>
      simp only [ht, Bool.false_eq_true, if_false]
      exact ⟨none, rfl⟩
    | true =>
      simp only [ht, Bool.not_true, Bool.false_or, if_true] at h ⊢
      cases v with
      | obj l => exact ⟨jLookup l k, rfl⟩
      | null => simp [Value.isObj] at h
      | bool b => simp [Value.isObj] at h
      | num n => simp [Value.isObj] at h
      | str s => simp [Value.isObj] at h
      | list xs => simp [Value.isObj] at h

theorem elig_total (pol : JObj) (ring : String) (h : fieldOkObj pol "scope" = true) :
    ∃ b, isPolicyAllowedInRing pol ring = some b := by
  obtain ⟨ov, hov⟩ := getThenGet_total pol "scope" "supported_rings" h
  unfold isPolicyAllowedInRing
  rw [hov]
  cases ov with
  | none => exact ⟨true, rfl⟩
  | some v =>
    cases v with
    | null => exact ⟨true, rfl⟩
    | list xs => exact ⟨_, rfl⟩
    | bool b => exact ⟨false, rfl⟩
    | num n => exact ⟨false, rfl⟩
    | str s => exact ⟨false, rfl⟩
    | obj l => exact ⟨false, rfl⟩

/-! ### Claims -/

/-- C7, counterexample.  The claim calls the eligibility check "a pure
total function" returning `true` whenever `scope.supported_rings` is
absent.  But on a policy whose `scope` field is a truthy non-dict (here
the string "attr"), `supported_rings` is absent and yet
`is_policy_allowed_in_ring` raises `AttributeError` at `scope.get`
(modelled as `none`) instead of returning `True`. -/
theorem c7_counterexample :
    jLookup ([("scope", Value.str "attr")] : JObj) "scope" = some (.str "attr")
    ∧ getThenGet ([("scope", Value.str "attr")] : JObj) "scope" "supported_rings" = none
    ∧ isPolicyAllowedInRing ([("scope", Value.str "attr")] : JObj) "qa" = none :=
  ⟨rfl, rfl, rfl⟩

/-- C7, amended.  On every policy whose `scope` field is absent, falsy or
a dict, `is_policy_allowed_in_ring` is total and behaves as claimed:
absent (or JSON-null) `supported_rings` gives `true` in every ring, a
present non-list gives `false`, and a present list gives membership of
the ring in the list.  (When `scope` is a truthy non-dict the function
raises instead of returning — the totality part of the original claim
fails there.) -/
theorem c7_amended_thm (pol : JObj) (ring : String)
    (h : fieldOkObj pol "scope" = true) :
    (getThenGet pol "scope" "supported_rings" = some none →
       isPolicyAllowedInRing pol ring = some true)
    ∧ (getThenGet pol "scope" "supported_rings" = some (some .null) →
       isPolicyAllowedInRing pol ring = some true)
    ∧ (∀ v, getThenGet pol "scope" "supported_rings" = some (some v) →
       (∀ xs, v ≠ .list xs) → v ≠ .null →
       isPolicyAllowedInRing pol ring = some false)
    ∧ (∀ xs, getThenGet pol "scope" "supported_rings" = some (some (.list xs)) →
       ∃ b, isPolicyAllowedInRing pol ring = some b ∧ (b = true ↔ Value.str ring ∈ xs))
    ∧ (∃ b, isPolicyAllowedInRing pol ring = some b) := by
  refine ⟨?_, ?_, ?_, ?_, elig_total pol ring h⟩
  · intro hg; unfold isPolicyAllowedInRing; rw [hg]
  · intro hg; unfold isPolicyAllowedInRing; rw [hg]
  · intro v hg hnl hnn
    unfold isPolicyAllowedInRing; rw [hg]
    cases v with
    | null => exact absurd rfl hnn
    | list xs => exact absurd rfl (hnl xs)
    | bool b => rfl
    | num n => rfl
    | str s => rfl
    | obj l => rfl
  · intro xs hg
    unfold isPolicyAllowedInRing; rw [hg]
    refine ⟨_, rfl, ?_⟩
    rw [List.any_eq_true]
    constructor
    · rintro ⟨e, he, hf⟩
      cases e with
      | str t =>
        simp only [decide_eq_true_eq] at hf
        subst hf; exact he
      | null => simp at hf
      | bool b => simp at hf
      | num n => simp at hf
      | list ys => simp at hf
      | obj l => simp at hf
    · intro hm
      exact ⟨Value.str ring, hm, by simp⟩

/-- C7 witness: a policy with no `scope` at all is eligible in ring qa. -/
theorem c7_amended_witness : isPolicyAllowedInRing ([] : JObj) "qa" = some true :=
  (c7_amended_thm [] "qa" rfl).1 rfl

/-- A ring from the ordinary enumeration is not the string
"break-glass". -/
theorem ring_ne_break_glass {ring : String} (h : ring ∈ ALLOWED_RINGS) :
    ring ≠ "break-glass" := by
  fin_cases h <;> decide

/-- C1: a policy with `metadata.emergency_use_only == true` is skipped by
the `apply_all` loop body in every ordinary ring, whatever
`scope.supported_rings` holds (and whether or not the eligibility check
already skipped it), and the connector is never consulted: the outcome is
the same for every connector. -/
theorem c1_emergency_skipped (pol : JObj) (ring : String) (conn conn2 : Connector)
    (hring : ring ∈ ALLOWED_RINGS)
    (hscope : fieldOkObj pol "scope" = true)
    (hem : getThenGet pol "metadata" "emergency_use_only" = some (some (.bool true))) :
    applyStep conn ring pol = applyStep conn2 ring pol
    ∧ ∃ d, applyStep conn ring pol = .ok ⟨nameOf pol, "skipped", d⟩ := by
  have hneq : ring ≠ "break-glass" := ring_ne_break_glass hring
  obtain ⟨b, hb⟩ := elig_total pol ring hscope
  unfold applyStep
  rw [hb]
  cases b with
  | false => exact ⟨rfl, _, rfl⟩
  | true =>
    rw [hem]
    have hcond : (ring != "break-glass") = true := by simpa using hneq
    simp only [hcond]
    exact ⟨rfl, _, rfl⟩

/-- Emergency-use-only policy, supported in all four rings. -/
def P1doc : JObj :=
  [("name", .str "bg"),
   ("scope", .obj [("supported_rings",
      .list [.str "qa", .str "security", .str "early", .str "global"])]),
   ("metadata", .obj [("emergency_use_only", .bool true)])]

/-- A connector whose every call raises. -/
def crashConn : Connector where
  getCurrent := fun _ => .error "ConnectionError"
  applyPolicy := fun _ => .error "ConnectionError"

/-- C1 witness at a concrete emergency policy in ring qa. -/
theorem c1_witness :
    applyStep (specBackend []) "qa" P1doc = applyStep crashConn "qa" P1doc
    ∧ ∃ d, applyStep (specBackend []) "qa" P1doc = .ok ⟨nameOf P1doc, "skipped", d⟩ :=
  c1_emergency_skipped P1doc "qa" (specBackend []) crashConn (by decide) rfl rfl

/-- C10: called with the ring string "break-glass" (reachable because
`apply_all` itself does not validate its ring argument), an
emergency-use-only policy that passes the eligibility check is NOT
skipped by the emergency guardrail: the loop body proceeds to the
fetch/apply path exactly as for an ordinary policy. -/
theorem c10_break_glass_ring (pol : JObj) (conn : Connector)
    (hem : getThenGet pol "metadata" "emergency_use_only" = some (some (.bool true)))
    (helig : isPolicyAllowedInRing pol "break-glass" = some true) :
    applyStep conn "break-glass" pol = fetchApply conn pol := by
  unfold applyStep
  rw [helig, hem]
  simp

/-- Emergency policy scoped to the pseudo-ring "break-glass". -/
def P10doc : JObj :=
  [("name", .str "break-glass-exception"),
   ("scope", .obj [("supported_rings", .list [.str "break-glass"])]),
   ("metadata", .obj [("emergency_use_only", .bool true)]),
   ("settings", .obj [])]

/-- C10 witness at a concrete emergency policy. -/
theorem c10_witness :
    applyStep (specBackend []) "break-glass" P10doc = fetchApply (specBackend []) P10doc :=
  c10_break_glass_ring P10doc (specBackend []) rfl rfl

/-! ### Lint structure lemmas -/

/-- Is the message one of the five break-glass violations. -/
def isBGMsg : LintMsg → Bool
  | .bgRollout | .bgRisk | .bgEmergency | .bgAutoExpire | .bgMaxDuration => true
  | _ => false

theorem mem_expectB {m m0 : LintMsg} {c : Bool} (h : m ∈ expectB c m0) : m = m0 := by
  cases c with
  | false => simp [expectB] at h; exact h
  | true => simp [expectB] at h

theorem mem_expectB_self_iff (c : Bool) (m0 : LintMsg) :
    m0 ∈ expectB c m0 ↔ c = false := by
  cases c <;> simp [expectB]

theorem telemetryErrs_mem {m : LintMsg} {tl : List (String × Value)}
    (h : m ∈ telemetryErrs tl) : ∃ k, m = .telemetryRange k := by
  induction tl with
  | nil => simp [telemetryErrs] at h
  | cons kv rest ih =>
    obtain ⟨k, v⟩ := kv
    simp only [telemetryErrs, List.mem_append] at h
    rcases h with h | h
    · cases v with
      | num n => exact ⟨k, mem_expectB h⟩
      | null => simp at h
      | bool b => simp at h
      | str s => simp at h
      | list xs => simp at h
      | obj l => simp at h
    · exact ih h

theorem scopeChecks_ok_mem {sc : Value} {l : List LintMsg} (h : scopeChecks sc = .ok l) :
    ∀ m ∈ l, m = .ringsList ∨ ∃ bad, m = .ringsInvalid bad := by
  unfold scopeChecks at h
  cases htr : pyTruthy sc with
  | false =>
    rw [htr] at h
    simp only [Bool.false_eq_true, if_false] at h
    cases h
    intro m hm
    simp at hm
  | true =>
    rw [htr] at h
    simp only [if_true] at h
    cases sc with
    | obj sl =>
      cases h
      intro m hm
      cases ho : jLookup sl "supported_rings" with
      | none => rw [ho] at hm; simp at hm
      | some v =>
        rw [ho] at hm
        cases v with
        | null => simp at hm
        | list xs =>
          simp only [List.mem_append] at hm
          rcases hm with hm | hm
          · exact Or.inl (mem_expectB hm)
          · exact Or.inr ⟨_, mem_expectB hm⟩
        | bool b =>
          simp only [List.mem_append] at hm
          rcases hm with hm | hm
          · exact Or.inl (mem_expectB hm)
          · simp at hm
        | num n =>
          simp only [List.mem_append] at hm
          rcases hm with hm | hm
          · exact Or.inl (mem_expectB hm)
          · simp at hm
        | str s =>
          simp only [List.mem_append] at hm
          rcases hm with hm | hm
          · exact Or.inl (mem_expectB hm)
          · simp at hm
        | obj l2 =>
          simp only [List.mem_append] at hm
          rcases hm with hm | hm
          · exact Or.inl (mem_expectB hm)
          · simp at hm
    | null => simp [pyTruthy] at htr
    | bool b => exact absurd h (by simp)
    | num n => exact absurd h (by simp)
    | str s => exact absurd h (by simp)
    | list xs => exact absurd h (by simp)

theorem telemetryChecks_ok_mem {tv : Value} {l : List LintMsg}
    (h : telemetryChecks tv = .ok l) : ∀ m ∈ l, ∃ k, m = .telemetryRange k := by
  unfold telemetryChecks at h
  cases htr : pyTruthy tv with
  | false =>
    rw [htr] at h
    simp only [Bool.false_eq_true, if_false] at h
    cases h
    intro m hm
    simp at hm
  | true =>
    rw [htr] at h
    simp only [if_true] at h
    cases tv with
    | obj tl =>
      cases h
      intro m hm
      exact telemetryErrs_mem hm
    | null => simp [pyTruthy] at htr
    | bool b => exact absurd h (by simp)
    | num n => exact absurd h (by simp)
    | str s => exact absurd h (by simp)
    | list xs => exact absurd h (by simp)

/-- Inverting a successful `mainChecks` run: the effective metadata is a
dict, and none of the produced messages is a break-glass one. -/
theorem mainChecks_ok_shape {p : JObj} {main : List LintMsg}
    (h : mainChecks p = .ok main) :
    (∃ ml, pyOrEmpty (jLookup p "metadata") = .obj ml)
    ∧ ∀ m ∈ main, isBGMsg m = false := by
  unfold mainChecks at h
  cases hm : pyOrEmpty (jLookup p "metadata") with
  | obj ml =>
    rw [hm] at h
    refine ⟨⟨ml, rfl⟩, ?_⟩
    cases hs : scopeChecks (pyOrEmpty (jLookup p "scope")) with
    | error e => rw [hs] at h; cases h
    | ok sErrs =>
      rw [hs] at h
      cases ht : telemetryChecks (pyOrEmpty (jLookup p "telemetry_expectations")) with
      | error e => rw [ht] at h; cases h
      | ok tErrs =>
        rw [ht] at h
        cases h
        intro m hm2
        simp only [List.mem_append] at hm2
        rcases hm2 with (((((((((hm2 | hm2) | hm2) | hm2) | hm2) | hm2) | hm2) | hm2) | hm2) | hm2) | hm2
        · rw [mem_expectB hm2]; rfl
        · rw [mem_expectB hm2]; rfl
        · rw [mem_expectB hm2]; rfl
        · rw [mem_expectB hm2]; rfl
        · rw [mem_expectB hm2]; rfl
        · rw [mem_expectB hm2]; rfl
        · cases hrl : jLookup ml "risk_level" with
          | none => rw [hrl] at hm2; simp at hm2
          | some v => rw [hrl] at hm2; rw [mem_expectB hm2]; rfl
        · cases hrl : jLookup ml "rollout_strategy" with
          | none => rw [hrl] at hm2; simp at hm2
          | some v => rw [hrl] at hm2; rw [mem_expectB hm2]; rfl
        · cases hrl : jLookup ml "approver_groups" with
          | none => rw [hrl] at hm2; simp at hm2
          | some v => rw [hrl] at hm2; rw [mem_expectB hm2]; rfl
        · rcases scopeChecks_ok_mem hs m hm2 with h2 | ⟨bad, h2⟩ <;> rw [h2] <;> rfl
        · obtain ⟨k, h2⟩ := telemetryChecks_ok_mem ht m hm2
          rw [h2]; rfl
  | null => rw [hm] at h; cases h
  | bool b => rw [hm] at h; cases h
  | num n => rw [hm] at h; cases h
  | str s => rw [hm] at h; cases h
  | list xs => rw [hm] at h; cases h

theorem mem_expectB_iff (m m0 : LintMsg) (c : Bool) :
    m ∈ expectB c m0 ↔ (c = false ∧ m = m0) := by
  cases c <;> simp [expectB]

theorem mdStrIs_iff (l : List (String × Value)) (key s0 : String) :
    mdStrIs l key s0 = true ↔ jLookup l key = some (.str s0) := by
  unfold mdStrIs
  cases h : jLookup l key with
  | none => simp
  | some v =>
    cases v with
    | str t => simp
    | null => simp
    | bool b => simp
    | num n => simp
    | list xs => simp
    | obj l2 => simp

theorem mdTrueIs_iff (l : List (String × Value)) (key : String) :
    mdTrueIs l key = true ↔ jLookup l key = some (.bool true) := by
  unfold mdTrueIs
  cases h : jLookup l key with
  | none => simp
  | some v =>
    cases v with
    | bool b => cases b <;> simp
    | null => simp
    | str t => simp
    | num n => simp
    | list xs => simp
    | obj l2 => simp

theorem maxDurationOk_iff (tl : List (String × Value)) :
    maxDurationOk tl = true ↔
      ∃ v, jLookup tl "max_duration_minutes" = some v ∧ pyIsIntB v = true
           ∧ 1 ≤ pyIntVal v ∧ pyIntVal v ≤ 240 := by
  unfold maxDurationOk
  cases h : jLookup tl "max_duration_minutes" with
  | none => simp
  | some v =>
    simp [Bool.and_eq_true, decide_eq_true_eq, and_assoc]

/-- Emergency-flagged policy with a non-reserved name; every
non-break-glass check passes. -/
def P3doc : JObj :=
  [("name", .str "emergency-foo"),
   ("platform", .str "windows"),
   ("version", .str "1.0.0"),
   ("metadata", .obj [("owner", .str "secops"),
                      ("approver_groups", .list [.str "secops"]),
                      ("change_ticket_required", .bool true),
                      ("risk_level", .str "low"),
                      ("rollout_strategy", .str "ringed"),
                      ("emergency_use_only", .bool true)]),
   ("settings", .obj [("x", .num 1)])]

/-- Fully compliant break-glass policy (reserved name, all invariants
satisfied). -/
def D3Wdoc : JObj :=
  [("name", .str "break-glass-exception"),
   ("platform", .str "macos"),
   ("version", .str "2.0.0"),
   ("metadata", .obj [("owner", .str "secops"),
                      ("approver_groups", .list [.str "secops"]),
                      ("change_ticket_required", .bool true),
                      ("risk_level", .str "critical"),
                      ("rollout_strategy", .str "manual-only"),
                      ("emergency_use_only", .bool true)]),
   ("settings", .obj [("x", .num 1)]),
   ("time_constraints", .obj [("auto_expire", .bool true),
                              ("max_duration_minutes", .num 60)])]

/-- Document with invalid semver "1.2" and missing `metadata.risk_level`,
everything else fine. -/
def D5doc : JObj :=
  [("name", .str "baseline"),
   ("platform", .str "windows"),
   ("version", .str "1.2"),
   ("metadata", .obj [("owner", .str "it-ops"),
                      ("approver_groups", .list [.str "endpoint-eng"]),
                      ("change_ticket_required", .bool true),
                      ("rollout_strategy", .str "ringed")]),
   ("settings", .obj [])]

/-- Reserved break-glass name, all non-break-glass checks passing, no
`time_constraints`, metadata lacking the break-glass fields. -/
def D9doc : JObj :=
  [("name", .str "break-glass-exception"),
   ("platform", .str "windows"),
   ("version", .str "1.0.0"),
   ("metadata", .obj [("owner", .str "secops"),
                      ("approver_groups", .list [.str "secops"]),
                      ("change_ticket_required", .bool true),
                      ("risk_level", .str "low"),
                      ("rollout_strategy", .str "ringed")]),
   ("settings", .obj [("x", .num 1)])]

/-- C3, counterexample.  A policy with `metadata.emergency_use_only ==
true` whose name is NOT in the reserved break-glass set passes
`lint_policy` with no violation at all, although its rollout strategy is
"ringed" (not manual-only), its risk level is "low" (not critical) and it
has no `time_constraints`: the validator triggers the break-glass
invariants on the reserved names only, never on the
`emergency_use_only` flag. -/
theorem c3_counterexample :
    getThenGet P3doc "metadata" "emergency_use_only" = some (some (.bool true))
    ∧ getThenGet P3doc "metadata" "rollout_strategy" = some (some (.str "ringed"))
    ∧ jLookup P3doc "time_constraints" = none
    ∧ lintPolicy P3doc = .ok [] :=
  ⟨rfl, rfl, rfl, rfl⟩

/-- C3, amended.  The validator enforces the break-glass invariants
exactly for the policies whose `name` is one of the reserved break-glass
identifiers (and whose required top-level fields are present, otherwise
validation short-circuits): each of the five break-glass violations is
reported iff its invariant fails.  `metadata.emergency_use_only` alone
does not trigger the checks. -/
theorem c3_amended_thm (p : JObj) (s : String) (errs : List LintMsg)
    (hname : jLookup p "name" = some (.str s))
    (hbgname : s ∈ BREAK_GLASS_NAMES)
    (htop : topMissing p = [])
    (hlint : lintPolicy p = .ok errs) :
    (LintMsg.bgRollout ∈ errs ↔
       ¬ getThenGet p "metadata" "rollout_strategy" = some (some (.str "manual-only")))
    ∧ (LintMsg.bgRisk ∈ errs ↔
       ¬ getThenGet p "metadata" "risk_level" = some (some (.str "critical")))
    ∧ (LintMsg.bgEmergency ∈ errs ↔
       ¬ getThenGet p "metadata" "emergency_use_only" = some (some (.bool true)))
    ∧ (LintMsg.bgAutoExpire ∈ errs ↔
       ¬ getThenGet p "time_constraints" "auto_expire" = some (some (.bool true)))
    ∧ (LintMsg.bgMaxDuration ∈ errs ↔
       ¬ ∃ v, getThenGet p "time_constraints" "max_duration_minutes" = some (some v)
              ∧ pyIsIntB v = true ∧ 1 ≤ pyIntVal v ∧ pyIntVal v ≤ 240) := by
  have hbg : BREAK_GLASS_NAMES.contains s = true := by simpa using hbgname
  simp only [lintPolicy, htop, List.isEmpty_nil, if_true] at hlint
  cases hmain : mainChecks p with
  | error e => rw [hmain] at hlint; cases hlint
  | ok main =>
    rw [hmain] at hlint
    cases hbgc : bgChecks p with
    | error e => rw [hbgc] at hlint; cases hlint
    | ok bg =>
      rw [hbgc] at hlint
      have herrs : errs = main ++ bg := by cases hlint; rfl
      subst herrs
      obtain ⟨⟨ml, hml⟩, hnobg⟩ := mainChecks_ok_shape hmain
      have hgmd : ∀ k, getThenGet p "metadata" k = some (jLookup ml k) := by
        intro k; unfold getThenGet; rw [hml]
      simp only [bgChecks, hname, hbg, if_true, hml] at hbgc
      cases htc : pyOrEmpty (jLookup p "time_constraints") with
      | null => rw [htc] at hbgc; cases hbgc
      | bool b => rw [htc] at hbgc; cases hbgc
      | num n => rw [htc] at hbgc; cases hbgc
      | str s2 => rw [htc] at hbgc; cases hbgc
      | list xs => rw [htc] at hbgc; cases hbgc
      | obj tl =>
        simp only [htc] at hbgc
        have hgtc : ∀ k, getThenGet p "time_constraints" k = some (jLookup tl k) := by
          intro k; unfold getThenGet; rw [htc]
        injection hbgc with hbgeq
        subst hbgeq
        refine ⟨?_, ?_, ?_, ?_, ?_⟩
        · -- bgRollout
          rw [hgmd, Option.some.injEq]
          constructor
          · intro hmem hcontra
            rcases List.mem_append.mp hmem with hm | hm
            · exact absurd (hnobg _ hm) (by decide)
            rcases List.mem_append.mp hm with hm | hm
            · rcases List.mem_append.mp hm with hm | hm
              · rcases List.mem_append.mp hm with hm | hm
                · rcases List.mem_append.mp hm with hm | hm
                  · have hc := (mem_expectB_self_iff _ _).mp hm
                    rw [← mdStrIs_iff ml "rollout_strategy" "manual-only"] at hcontra
                    rw [hcontra] at hc
                    simp at hc
                  · cases mem_expectB hm
                · cases mem_expectB hm
              · cases mem_expectB hm
            · cases mem_expectB hm
          · intro hne
            refine List.mem_append.mpr (Or.inr ?_)
            refine List.mem_append.mpr (Or.inl ?_)
            refine List.mem_append.mpr (Or.inl ?_)
            refine List.mem_append.mpr (Or.inl ?_)
            refine List.mem_append.mpr (Or.inl ?_)
            refine (mem_expectB_self_iff _ _).mpr ?_
            rw [← Bool.not_eq_true, mdStrIs_iff]
            exact hne
        · -- bgRisk
          rw [hgmd, Option.some.injEq]
          constructor
          · intro hmem hcontra
            rcases List.mem_append.mp hmem with hm | hm
            · exact absurd (hnobg _ hm) (by decide)
            rcases List.mem_append.mp hm with hm | hm
            · rcases List.mem_append.mp hm with hm | hm
              · rcases List.mem_append.mp hm with hm | hm
                · rcases List.mem_append.mp hm with hm | hm
                  · cases mem_expectB hm
                  · have hc := (mem_expectB_self_iff _ _).mp hm
                    rw [← mdStrIs_iff ml "risk_level" "critical"] at hcontra
                    rw [hcontra] at hc
                    simp at hc
                · cases mem_expectB hm
              · cases mem_expectB hm
            · cases mem_expectB hm
          · intro hne
            refine List.mem_append.mpr (Or.inr ?_)
            refine List.mem_append.mpr (Or.inl ?_)
            refine List.mem_append.mpr (Or.inl ?_)
            refine List.mem_append.mpr (Or.inl ?_)
            refine List.mem_append.mpr (Or.inr ?_)
            refine (mem_expectB_self_iff _ _).mpr ?_
            rw [← Bool.not_eq_true, mdStrIs_iff]
            exact hne
        · -- bgEmergency
          rw [hgmd, Option.some.injEq]
          constructor
          · intro hmem hcontra
            rcases List.mem_append.mp hmem with hm | hm
            · exact absurd (hnobg _ hm) (by decide)
            rcases List.mem_append.mp hm with hm | hm
            · rcases List.mem_append.mp hm with hm | hm
              · rcases List.mem_append.mp hm with hm | hm
                · rcases List.mem_append.mp hm with hm | hm
                  · cases mem_expectB hm
                  · cases mem_expectB hm
                · have hc := (mem_expectB_self_iff _ _).mp hm
                  rw [← mdTrueIs_iff ml "emergency_use_only"] at hcontra
                  rw [hcontra] at hc
                  simp at hc
              · cases mem_expectB hm
            · cases mem_expectB hm
          · intro hne
            refine List.mem_append.mpr (Or.inr ?_)
            refine List.mem_append.mpr (Or.inl ?_)
            refine List.mem_append.mpr (Or.inl ?_)
            refine List.mem_append.mpr (Or.inr ?_)
            refine (mem_expectB_self_iff _ _).mpr ?_
            rw [← Bool.not_eq_true, mdTrueIs_iff]
            exact hne
        · -- bgAutoExpire
          rw [hgtc, Option.some.injEq]
          constructor
          · intro hmem hcontra
            rcases List.mem_append.mp hmem with hm | hm
            · exact absurd (hnobg _ hm) (by decide)
            rcases List.mem_append.mp hm with hm | hm
            · rcases List.mem_append.mp hm with hm | hm
              · rcases List.mem_append.mp hm with hm | hm
                · rcases List.mem_append.mp hm with hm | hm
                  · cases mem_expectB hm
                  · cases mem_expectB hm
                · cases mem_expectB hm
              · have hc := (mem_expectB_self_iff _ _).mp hm
                rw [← mdTrueIs_iff tl "auto_expire"] at hcontra
                rw [hcontra] at hc
                simp at hc
            · cases mem_expectB hm
          · intro hne
            refine List.mem_append.mpr (Or.inr ?_)
            refine List.mem_append.mpr (Or.inl ?_)
            refine List.mem_append.mpr (Or.inr ?_)
            refine (mem_expectB_self_iff _ _).mpr ?_
            rw [← Bool.not_eq_true, mdTrueIs_iff]
            exact hne
        · -- bgMaxDuration
          simp only [hgtc, Option.some.injEq]
          constructor
          · intro hmem hcontra
            rcases List.mem_append.mp hmem with hm | hm
            · exact absurd (hnobg _ hm) (by decide)
            rcases List.mem_append.mp hm with hm | hm
            · rcases List.mem_append.mp hm with hm | hm
              · rcases List.mem_append.mp hm with hm | hm
                · rcases List.mem_append.mp hm with hm | hm
                  · cases mem_expectB hm
                  · cases mem_expectB hm
                · cases mem_expectB hm
              · cases mem_expectB hm
            · have hc := (mem_expectB_self_iff _ _).mp hm
              rw [← maxDurationOk_iff tl] at hcontra
              rw [hcontra] at hc
              simp at hc
          · intro hne
            refine List.mem_append.mpr (Or.inr ?_)
            refine List.mem_append.mpr (Or.inr ?_)
            refine (mem_expectB_self_iff _ _).mpr ?_
            rw [← Bool.not_eq_true, maxDurationOk_iff]
            exact hne

/-- C3 witness: on the fully compliant break-glass document the theorem
applies with an empty violation list, and indeed none of the five
break-glass conditions fails. -/
theorem c3_amended_witness :
    (LintMsg.bgRollout ∈ ([] : List LintMsg) ↔
       ¬ getThenGet D3Wdoc "metadata" "rollout_strategy" = some (some (.str "manual-only")))
    ∧ (LintMsg.bgRisk ∈ ([] : List LintMsg) ↔
       ¬ getThenGet D3Wdoc "metadata" "risk_level" = some (some (.str "critical")))
    ∧ (LintMsg.bgEmergency ∈ ([] : List LintMsg) ↔
       ¬ getThenGet D3Wdoc "metadata" "emergency_use_only" = some (some (.bool true)))
    ∧ (LintMsg.bgAutoExpire ∈ ([] : List LintMsg) ↔
       ¬ getThenGet D3Wdoc "time_constraints" "auto_expire" = some (some (.bool true)))
    ∧ (LintMsg.bgMaxDuration ∈ ([] : List LintMsg) ↔
       ¬ ∃ v, getThenGet D3Wdoc "time_constraints" "max_duration_minutes" = some (some v)
              ∧ pyIsIntB v = true ∧ 1 ≤ pyIntVal v ∧ pyIntVal v ≤ 240) :=
  c3_amended_thm D3Wdoc "break-glass-exception" [] rfl (by decide) rfl rfl

/-- C5: if any required top-level field is missing, `lint_policy` returns
exactly the one missing-fields violation and performs no further check;
otherwise all remaining checks accumulate in a single pass — on the
document with version "1.2" and no `metadata.risk_level` the result is
exactly the two distinct violations. -/
theorem c5_validator_structure :
    (∀ p : JObj, topMissing p ≠ [] → lintPolicy p = .ok [.missingTop (topMissing p)])
    ∧ lintPolicy D5doc = .ok [.versionSemver, .missingMeta ["risk_level"]] := by
  constructor
  · intro p hp
    have h2 : (topMissing p).isEmpty = false := by
      cases hcase : topMissing p with
      | nil => exact absurd hcase hp
      | cons a l => rfl
    simp only [lintPolicy, h2, Bool.false_eq_true, if_false]
  · rfl

/-- C5 witness: the empty document is missing all five required fields
and gets exactly one violation. -/
theorem c5_witness :
    lintPolicy ([] : JObj) =
      .ok [.missingTop ["metadata", "name", "platform", "settings", "version"]] :=
  c5_validator_structure.1 [] (by decide)

/-- C9, counterexample.  On a break-glass document lacking
`time_constraints` (and the three break-glass metadata fields) the
validator reports FIVE break-glass violations, not four: the missing
`time_constraints` surfaces as two separate violations (`auto_expire`
and `max_duration_minutes`), because `policy.get("time_constraints") or
{}` turns the absent field into an empty dict before the checks run. -/
theorem c9_counterexample :
    lintPolicy D9doc = .ok [.bgRollout, .bgRisk, .bgEmergency, .bgAutoExpire, .bgMaxDuration]
    ∧ Except.map List.length (lintPolicy D9doc) = .ok 5
    ∧ ((Except.ok 5 : Except String Nat) ≠ .ok 4) :=
  ⟨rfl, rfl, by simp⟩

/-- C9, amended.  A break-glass policy document (reserved name, all
non-break-glass checks passing) that lacks `time_constraints` and whose
metadata lacks manual-only rollout, critical risk and the emergency flag
gets exactly FIVE break-glass violations: rollout_strategy, risk_level,
emergency_use_only, auto_expire and max_duration_minutes. -/
theorem c9_amended_thm (p : JObj) (s : String)
    (hname : jLookup p "name" = some (.str s))
    (hbgname : s ∈ BREAK_GLASS_NAMES)
    (htop : topMissing p = [])
    (hmain : mainChecks p = .ok [])
    (hnotc : jLookup p "time_constraints" = none)
    (hro : ¬ getThenGet p "metadata" "rollout_strategy" = some (some (.str "manual-only")))
    (hri : ¬ getThenGet p "metadata" "risk_level" = some (some (.str "critical")))
    (hem : ¬ getThenGet p "metadata" "emergency_use_only" = some (some (.bool true))) :
    lintPolicy p = .ok [.bgRollout, .bgRisk, .bgEmergency, .bgAutoExpire, .bgMaxDuration] := by
  have hbg : BREAK_GLASS_NAMES.contains s = true := by simpa using hbgname
  obtain ⟨⟨ml, hml⟩, _⟩ := mainChecks_ok_shape hmain
  have hgmd : ∀ k, getThenGet p "metadata" k = some (jLookup ml k) := by
    intro k; unfold getThenGet; rw [hml]
  simp only [hgmd, Option.some.injEq] at hro hri hem
  have hc1 : mdStrIs ml "rollout_strategy" "manual-only" = false := by
    rw [← Bool.not_eq_true, mdStrIs_iff]; exact hro
  have hc2 : mdStrIs ml "risk_level" "critical" = false := by
    rw [← Bool.not_eq_true, mdStrIs_iff]; exact hri
  have hc3 : mdTrueIs ml "emergency_use_only" = false := by
    rw [← Bool.not_eq_true, mdTrueIs_iff]; exact hem
  have htc : pyOrEmpty (jLookup p "time_constraints") = .obj [] := by
    rw [hnotc]; rfl
  have hbgc : bgChecks p =
      .ok [.bgRollout, .bgRisk, .bgEmergency, .bgAutoExpire, .bgMaxDuration] := by
    simp only [bgChecks, hname, hbg, if_true, hml, htc, hc1, hc2, hc3]
    rfl
  simp only [lintPolicy, htop, List.isEmpty_nil, if_true, hmain, hbgc]
  rfl

/-- C9 witness at the concrete break-glass document. -/
theorem c9_witness :
    lintPolicy D9doc = .ok [.bgRollout, .bgRisk, .bgEmergency, .bgAutoExpire, .bgMaxDuration] :=
  c9_amended_thm D9doc "break-glass-exception" rfl (by decide) rfl rfl rfl
    (by
      intro h
      rw [show getThenGet D9doc "metadata" "rollout_strategy"
            = some (some (Value.str "ringed")) from rfl] at h
      simp at h)
    (by
      intro h
      rw [show getThenGet D9doc "metadata" "risk_level"
            = some (some (Value.str "low")) from rfl] at h
      simp at h)
    (by
      intro h
      rw [show getThenGet D9doc "metadata" "emergency_use_only"
            = some none from rfl] at h
      simp at h)

/-! ### Reflexivity of Python equality on well-formed values -/

theorem wfList_mem {xs : List Value} {x : Value} (h : wfList xs = true) (hx : x ∈ xs) :
    wfV x = true := by
  induction xs with
  | nil => simp at hx
  | cons y ys ih =>
    simp only [wfList, Bool.and_eq_true] at h
    rcases List.mem_cons.mp hx with hx | hx
    · rw [hx]; exact h.1
    · exact ih h.2 hx

theorem wfEntries_mem {l : List (String × Value)} {k : String} {v : Value}
    (h : wfEntries l = true) (hm : (k, v) ∈ l) : wfV v = true := by
  induction l with
  | nil => simp at hm
  | cons kv rest ih =>
    obtain ⟨k2, v2⟩ := kv
    simp only [wfEntries, Bool.and_eq_true] at h
    rcases List.mem_cons.mp hm with hm | hm
    · cases hm; exact h.1
    · exact ih h.2 hm

theorem pyEqFind_of_mem {l : List (String × Value)} {k : String} {v : Value}
    (hmem : (k, v) ∈ l) (hnd : (l.map Prod.fst).Nodup) (hv : pyEq v v = true) :
    pyEqFind k v l = true := by
  induction l with
  | nil => simp at hmem
  | cons kv2 rest ih =>
    obtain ⟨k2, v2⟩ := kv2
    simp only [List.map_cons, List.nodup_cons] at hnd
    simp only [pyEqFind]
    by_cases hk : k = k2
    · subst hk
      simp only [if_pos rfl]
      rcases List.mem_cons.mp hmem with hm | hm
      · cases hm; exact hv
      · exact absurd (List.mem_map_of_mem Prod.fst hm) hnd.1
    · rw [if_neg hk]
      rcases List.mem_cons.mp hmem with hm | hm
      · cases hm; exact absurd rfl hk
      · exact ih hm hnd.2

theorem pyEqEntries_of_forall {l1 l : List (String × Value)}
    (h : ∀ kv ∈ l1, pyEqFind kv.1 kv.2 l = true) : pyEqEntries l1 l = true := by
  induction l1 with
  | nil => simp [pyEqEntries]
  | cons kv rest ih =>
    obtain ⟨k, v⟩ := kv
    simp only [pyEqEntries, Bool.and_eq_true]
    exact ⟨h (k, v) (List.mem_cons_self _ _),
           ih (fun kv2 hkv2 => h kv2 (List.mem_cons_of_mem _ hkv2))⟩

theorem pyEqList_refl_of_forall {xs : List Value}
    (h : ∀ x ∈ xs, pyEq x x = true) : pyEqList xs xs = true := by
  induction xs with
  | nil => simp [pyEqList]
  | cons x rest ih =>
    simp only [pyEqList, Bool.and_eq_true]
    exact ⟨h x (List.mem_cons_self _ _),
           ih (fun y hy => h y (List.mem_cons_of_mem _ hy))⟩

theorem pyEq_refl_n : ∀ (n : Nat) (v : Value), sizeOf v ≤ n → wfV v = true → pyEq v v = true := by
  intro n
  induction n with
  | zero =>
    intro v hv _
    cases v <;> simp_arith at hv
  | succ n ih =>
    intro v hv hwf
    cases v with
    | null => simp [pyEq]
    | bool b => simp [pyEq]
    | num a => simp [pyEq]
    | str s => simp [pyEq]
    | list xs =>
      have hsz : sizeOf xs ≤ n := by
        simp only [Value.list.sizeOf_spec] at hv; omega
      have hwf2 : wfList xs = true := hwf
      have hall : ∀ x ∈ xs, pyEq x x = true := by
        intro x hx
        have h1 := List.sizeOf_lt_of_mem hx
        exact ih x (by omega) (wfList_mem hwf2 hx)
      simp only [pyEq]
      exact pyEqList_refl_of_forall hall
    | obj l =>
      have hsz : sizeOf l ≤ n := by
        simp only [Value.obj.sizeOf_spec] at hv; omega
      have hwf2 : (decide ((l.map Prod.fst).Nodup) && wfEntries l) = true := hwf
      simp only [Bool.and_eq_true, decide_eq_true_eq] at hwf2
      have hall : ∀ kv ∈ l, pyEqFind kv.1 kv.2 l = true := by
        intro kv hkv
        obtain ⟨k, v2⟩ := kv
        have h1 := List.sizeOf_lt_of_mem hkv
        have h2 : sizeOf v2 < sizeOf l := by
          simp only [Prod.mk.sizeOf_spec] at h1; omega
        exact pyEqFind_of_mem hkv hwf2.1 (ih v2 (by omega) (wfEntries_mem hwf2.2 hkv))
      simp only [pyEq, Bool.and_eq_true]
      exact ⟨by simp, pyEqEntries_of_forall hall⟩

theorem pyEq_refl (v : Value) (h : wfV v = true) : pyEq v v = true :=
  pyEq_refl_n (sizeOf v) v le_rfl h

/-! ### C2: idempotent apply -/

/-- When the eligibility check passes and the emergency guardrail does not
fire, the loop body is exactly the fetch/apply tail. -/
theorem applyStep_eq_fetchApply {pol : JObj} {ring : String} (conn : Connector)
    (helig : isPolicyAllowedInRing pol ring = some true)
    (hmd : getThenGet pol "metadata" "emergency_use_only" ≠ none)
    (hem : getThenGet pol "metadata" "emergency_use_only" ≠ some (some (.bool true))
           ∨ ring = "break-glass") :
    applyStep conn ring pol = fetchApply conn pol := by
  unfold applyStep
  rw [helig]
  cases hg : getThenGet pol "metadata" "emergency_use_only" with
  | none => exact absurd hg hmd
  | some ev =>
    rcases hem with hem | hem
    · have hflag : emergencyFlag ev = false := by
        cases ev with
        | none => rfl
        | some v =>
          cases v with
          | bool b =>
            cases b with
            | true => rw [hg] at hem; exact absurd rfl hem
            | false => rfl
          | null => rfl
          | str t => rfl
          | num m => rfl
          | list xs => rfl
          | obj l => rfl
      simp [hflag]
    · subst hem
      simp

/-- C2: for a policy that passes the eligibility and guardrail checks,
the engine (a) reports `no_change` without calling apply when the fetched
state is present and Python-equal to the desired settings, (b) otherwise
calls apply and reports its outcome, and (c) against the spec-modelled
idempotent backend, two runs from a non-compliant state give `applied`
then `no_change`. -/
theorem c2_idempotent_apply (pol : JObj) (ring : String) (conn : Connector)
    (helig : isPolicyAllowedInRing pol ring = some true)
    (hmd : getThenGet pol "metadata" "emergency_use_only" ≠ none)
    (hem : getThenGet pol "metadata" "emergency_use_only" ≠ some (some (.bool true))
           ∨ ring = "break-glass") :
    (∀ cur, conn.getCurrent (nameOf pol) = .ok (some cur) →
       pyEq ((jLookup cur "settings").getD (.obj [])) (desiredOf pol) = true →
       applyStep conn ring pol = .ok ⟨nameOf pol, "no_change", "already compliant"⟩)
    ∧ (∀ r, conn.applyPolicy pol = .ok r →
       (conn.getCurrent (nameOf pol) = .ok none ∨
        ∃ cur, conn.getCurrent (nameOf pol) = .ok (some cur) ∧
          pyEq ((jLookup cur "settings").getD (.obj [])) (desiredOf pol) = false) →
       applyStep conn ring pol = .ok r)
    ∧ (∀ st s, nameOf pol = .str s → wfV (desiredOf pol) = true →
       (jLookup st s = none ∨ ∃ v, jLookup st s = some v ∧ pyEq v (desiredOf pol) = false) →
       applyStep (specBackend st) ring pol = .ok ⟨nameOf pol, "applied", "created or updated"⟩
       ∧ applyStep (specBackend (specApplyState st pol)) ring pol =
           .ok ⟨nameOf pol, "no_change", "already compliant"⟩) := by
  have ha : ∀ (c : Connector) (cur : JObj), c.getCurrent (nameOf pol) = .ok (some cur) →
      pyEq ((jLookup cur "settings").getD (.obj [])) (desiredOf pol) = true →
      applyStep c ring pol = .ok ⟨nameOf pol, "no_change", "already compliant"⟩ := by
    intro c cur hcur hpy
    rw [applyStep_eq_fetchApply c helig hmd hem]
    unfold fetchApply
    simp [hcur, hpy]
  have hb : ∀ (c : Connector) (r : ApplyResult), c.applyPolicy pol = .ok r →
      (c.getCurrent (nameOf pol) = .ok none ∨
       ∃ cur, c.getCurrent (nameOf pol) = .ok (some cur) ∧
         pyEq ((jLookup cur "settings").getD (.obj [])) (desiredOf pol) = false) →
      applyStep c ring pol = .ok r := by
    intro c r happ hdisj
    rw [applyStep_eq_fetchApply c helig hmd hem]
    unfold fetchApply
    rcases hdisj with hcur | ⟨cur, hcur, hpy⟩
    · simp only [hcur]
      unfold tryApply
      rw [happ]
    · simp only [hcur, hpy, Bool.false_eq_true, if_false]
      unfold tryApply
      rw [happ]
  refine ⟨ha conn, hb conn, ?_⟩
  intro st s hs hwf hinit
  constructor
  · apply hb (specBackend st) _ rfl
    rcases hinit with hinit | ⟨v, hv, hpy⟩
    · left
      rw [hs]
      show Except.ok ((jLookup st s).map fun setts => [("settings", setts)]) = Except.ok none
      rw [hinit]; rfl
    · right
      refine ⟨[("settings", v)], ?_, ?_⟩
      · rw [hs]
        show Except.ok ((jLookup st s).map fun setts => [("settings", setts)]) =
          Except.ok (some [("settings", v)])
        rw [hv]; rfl
      · exact hpy
  · apply ha (specBackend (specApplyState st pol)) [("settings", desiredOf pol)]
    · rw [hs]
      show Except.ok ((jLookup (specApplyState st pol) s).map fun setts => [("settings", setts)]) =
        Except.ok (some [("settings", desiredOf pol)])
      unfold specApplyState
      rw [hs]
      simp [jLookup]
    · exact pyEq_refl _ hwf

/-- Ordinary ring-scoped policy for the idempotence witness. -/
def P2doc : JObj := [("name", .str "p1"), ("settings", .obj [("a", .num 1)])]

/-- C2 witness: against an empty backend, the first run applies and the
second reports no_change. -/
theorem c2_witness :
    applyStep (specBackend []) "qa" P2doc =
      .ok ⟨nameOf P2doc, "applied", "created or updated"⟩
    ∧ applyStep (specBackend (specApplyState [] P2doc)) "qa" P2doc =
      .ok ⟨nameOf P2doc, "no_change", "already compliant"⟩ :=
  (c2_idempotent_apply P2doc "qa" (specBackend []) rfl
      (by
        rw [show getThenGet P2doc "metadata" "emergency_use_only" = some none from rfl]
        simp)
      (Or.inl (by
        rw [show getThenGet P2doc "metadata" "emergency_use_only" = some none from rfl]
        simp))).2.2
    [] "p1" rfl (by simp [wfV, wfEntries, desiredOf, P2doc, jLookup]) (Or.inl rfl)

/-! ### C4: fault isolation -/

/-- C4, counterexample.  In `apply_all` only the `apply_policy` call is
inside the `try`; the `get_current_policy` fetch is outside it (line
114).  A connector whose fetch raises therefore aborts the whole batch:
a 2-policy batch returns no results at all instead of 2 results with one
`failed`. -/
theorem c4_counterexample :
    applyAll crashConn [[("name", Value.str "a")], [("name", Value.str "b")]] "qa"
      = .error "ConnectionError" := rfl

/-- Totality of the loop body when the fetch cannot raise and the
`scope`/`metadata` accesses cannot raise. -/
theorem applyStep_total (conn : Connector) (ring : String) (pol : JObj)
    (hscope : fieldOkObj pol "scope" = true)
    (hmd : fieldOkObj pol "metadata" = true)
    (hfetch : ∀ v, ∃ o, conn.getCurrent v = .ok o) :
    ∃ r, applyStep conn ring pol = .ok r := by
  obtain ⟨b, hb⟩ := elig_total pol ring hscope
  unfold applyStep
  simp only [hb]
  cases b with
  | false => exact ⟨_, rfl⟩
  | true =>
    obtain ⟨ev, hev⟩ := getThenGet_total pol "metadata" "emergency_use_only" hmd
    simp only [hev]
    by_cases hc : (emergencyFlag ev && ring != "break-glass") = true
    · rw [if_pos hc]; exact ⟨_, rfl⟩
    · rw [if_neg hc]
      unfold fetchApply
      obtain ⟨o, ho⟩ := hfetch (nameOf pol)
      simp only [ho]
      cases o with
      | none =>
        unfold tryApply
        cases happ : conn.applyPolicy pol with
        | ok r => exact ⟨r, rfl⟩
        | error e => exact ⟨_, rfl⟩
      | some cur =>
        show ∃ r,
          (if pyEq ((jLookup cur "settings").getD (Value.obj [])) (desiredOf pol) = true then
            Except.ok ⟨nameOf pol, "no_change", "already compliant"⟩
          else tryApply conn pol) = Except.ok r
        by_cases hpy : pyEq ((jLookup cur "settings").getD (.obj [])) (desiredOf pol) = true
        · rw [if_pos hpy]; exact ⟨_, rfl⟩
        · rw [if_neg hpy]
          unfold tryApply
          cases happ : conn.applyPolicy pol with
          | ok r => exact ⟨r, rfl⟩
          | error e => exact ⟨_, rfl⟩

/-- A batch whose every step succeeds with a non-`failed` status yields
one result per policy and no `failed` result. -/
theorem applyAll_total_no_failed (conn : Connector) (ring : String) (qs : List JObj)
    (h : ∀ q ∈ qs, ∃ r, applyStep conn ring q = .ok r ∧ r.status ≠ "failed") :
    ∃ rs, applyAll conn qs ring = .ok rs ∧ rs.length = qs.length
      ∧ rs.countP (fun r => r.status == "failed") = 0 := by
  induction qs with
  | nil => exact ⟨[], rfl, rfl, rfl⟩
  | cons q rest ih =>
    obtain ⟨r, hr, hst⟩ := h q (List.mem_cons_self _ _)
    obtain ⟨rs, hrs, hlen, hcnt⟩ := ih (fun q2 hq2 => h q2 (List.mem_cons_of_mem _ hq2))
    refine ⟨r :: rs, ?_, ?_, ?_⟩
    · simp only [applyAll, hr, hrs]
    · simp [hlen]
    · simp [List.countP_cons, hcnt, hst]

/-- C4, amended.  In the generic engine only the apply call is
fault-isolated: if every fetch succeeds (and the scope/metadata accesses
do not raise), `apply_all` returns one result per policy in input order;
a batch in which exactly one policy's step comes out `failed` (its apply
raised) and every other step succeeds with a non-failed status yields
exactly one `failed` result, in place.  (A fetch exception instead
aborts the whole batch — see the counterexample.) -/
theorem c4_amended_thm (conn : Connector) (ring : String) (pre post : List JObj)
    (pol : JObj) (e : String)
    (hfetch : ∀ v, ∃ o, conn.getCurrent v = .ok o)
    (hwf : ∀ q ∈ pre ++ pol :: post,
       fieldOkObj q "scope" = true ∧ fieldOkObj q "metadata" = true)
    (hp : applyStep conn ring pol = .ok ⟨nameOf pol, "failed", e⟩)
    (hothers : ∀ q ∈ pre ++ post, ∀ r, applyStep conn ring q = .ok r →
       r.status ≠ "failed") :
    ∃ rs, applyAll conn (pre ++ pol :: post) ring = .ok rs
      ∧ rs.length = (pre ++ pol :: post).length
      ∧ rs.countP (fun r => r.status == "failed") = 1
      ∧ rs[pre.length]? = some ⟨nameOf pol, "failed", e⟩ := by
  induction pre with
  | nil =>
    have hpost : ∀ q ∈ post, ∃ r, applyStep conn ring q = .ok r ∧ r.status ≠ "failed" := by
      intro q hq
      obtain ⟨hs, hm⟩ := hwf q (by simp [hq])
      obtain ⟨r, hr⟩ := applyStep_total conn ring q hs hm hfetch
      exact ⟨r, hr, hothers q (by simp [hq]) r hr⟩
    obtain ⟨rs, hrs, hlen, hcnt⟩ := applyAll_total_no_failed conn ring post hpost
    refine ⟨⟨nameOf pol, "failed", e⟩ :: rs, ?_, ?_, ?_, ?_⟩
    · simp only [List.nil_append, applyAll, hp, hrs]
    · simp [hlen]
    · simp [List.countP_cons, hcnt]
    · simp
  | cons q pre ih =>
    obtain ⟨hs, hm⟩ := hwf q (List.mem_cons_self _ _)
    obtain ⟨r, hr⟩ := applyStep_total conn ring q hs hm hfetch
    have hrne := hothers q (List.mem_cons_self _ _) r hr
    obtain ⟨rs, hrs, hlen, hcnt, hget⟩ :=
      ih (fun q2 hq2 => hwf q2 (List.mem_cons_of_mem _ hq2))
        (fun q2 hq2 => hothers q2 (List.mem_cons_of_mem _ hq2))
    refine ⟨r :: rs, ?_, ?_, ?_, ?_⟩
    · show applyAll conn (q :: (pre ++ pol :: post)) ring = .ok (r :: rs)
      simp only [applyAll, hr, hrs]
    · simp [hlen]
    · simp [List.countP_cons, hcnt, hrne]
    · show (r :: rs)[pre.length + 1]? = some ⟨nameOf pol, "failed", e⟩
      simpa using hget

/-- A connector whose apply raises exactly for the policy named "b". -/
def conn4 : Connector where
  getCurrent := fun _ => .ok none
  applyPolicy := fun pol =>
    match nameOf pol with
    | .str "b" => .error "boom"
    | _ => .ok ⟨nameOf pol, "applied", "ok"⟩

/-- C4 witness: a 3-policy batch whose middle policy's apply raises
yields 3 results with exactly one `failed`, in place. -/
theorem c4_witness :
    ∃ rs, applyAll conn4
        [[("name", Value.str "a")], [("name", Value.str "b")], [("name", Value.str "c")]]
        "qa" = .ok rs
      ∧ rs.length = 3
      ∧ rs.countP (fun r => r.status == "failed") = 1
      ∧ rs[1]? = some ⟨Value.str "b", "failed", "boom"⟩ :=
  c4_amended_thm conn4 "qa" [[("name", Value.str "a")]] [[("name", Value.str "c")]]
    [("name", Value.str "b")] "boom"
    (fun _ => ⟨none, rfl⟩)
    (by intro q hq; fin_cases hq <;> exact ⟨rfl, rfl⟩)
    rfl
    (by
      intro q hq
      fin_cases hq
      · intro r hr
        rw [show applyStep conn4 "qa" [("name", Value.str "a")]
              = Except.ok ⟨Value.str "a", "applied", "ok"⟩ from rfl] at hr
        cases hr
        decide
      · intro r hr
        rw [show applyStep conn4 "qa" [("name", Value.str "c")]
              = Except.ok ⟨Value.str "c", "applied", "ok"⟩ from rfl] at hr
        cases hr
        decide)

/-! ### C6: the semver acceptance grammar

The claim-side grammar, written from the claim's words: three
dot-separated non-negative decimal integers with no leading zeros
(except the single digit "0"), optionally followed by a suffix
beginning with `-` or `+` (the regex `[-+].+`: the marker plus at least
one character). -/

/-- A decimal numeral with no leading zeros: all characters are digits
and the numeral is either exactly "0" or led by a nonzero digit. -/
def NumeralL (l : List Char) : Prop :=
  (∀ c ∈ l, isDig c = true) ∧ (l = ['0'] ∨ ∃ d t, l = d :: t ∧ '1' ≤ d ∧ d ≤ '9')

/-- The optional suffix: empty, or a `-`/`+` marker followed by at least
one character. -/
def SuffixOkL (r : List Char) : Prop :=
  r = [] ∨ ∃ c t, r = c :: t ∧ (c = '-' ∨ c = '+') ∧ t ≠ []

/-- The claim's version grammar. -/
def SemverGrammar (cs : List Char) : Prop :=
  ∃ a b c rest, cs = a ++ '.' :: (b ++ '.' :: (c ++ rest))
    ∧ NumeralL a ∧ NumeralL b ∧ NumeralL c ∧ SuffixOkL rest

/-- The suffix as the regex group `[-+].+` reads it: empty, or a
`-`/`+` marker followed by at least one character none of which is a
newline (`.` does not match `\n`). -/
def PySuffixOk (r : List Char) : Prop :=
  r = [] ∨ ∃ c t, r = c :: t ∧ (c = '-' ∨ c = '+') ∧ t ≠ [] ∧ ∀ ch ∈ t, ch ≠ '\n'

/-- The language of the `$`-free part of `SEMVER_RE`. -/
def SemverBodyGrammar (cs : List Char) : Prop :=
  ∃ a b c rest, cs = a ++ '.' :: (b ++ '.' :: (c ++ rest))
    ∧ NumeralL a ∧ NumeralL b ∧ NumeralL c ∧ PySuffixOk rest

/-- The language `SEMVER_RE` accepts: the body language, with one
trailing newline tolerated by `$`. -/
def PySemverAccepted (cs : List Char) : Prop :=
  SemverBodyGrammar cs ∨ ∃ cs2, cs = cs2 ++ ['\n'] ∧ SemverBodyGrammar cs2

theorem numOK_shape {l : List Char} (h : numOK l = true) :
    l = ['0'] ∨ ∃ d t, l = d :: t ∧ '1' ≤ d ∧ d ≤ '9' := by
  match l with
  | [] => simp [numOK] at h
  | [c] =>
    simp only [numOK, Bool.or_eq_true, Bool.and_eq_true, beq_iff_eq,
      decide_eq_true_eq] at h
    rcases h with h | ⟨h1, h2⟩
    · exact Or.inl (by rw [h])
    · exact Or.inr ⟨c, [], rfl, h1, h2⟩
  | c :: c2 :: t =>
    simp only [numOK, Bool.and_eq_true, decide_eq_true_eq] at h
    exact Or.inr ⟨c, c2 :: t, rfl, h.1, h.2⟩

theorem numOK_of_shape {l : List Char}
    (h : l = ['0'] ∨ ∃ d t, l = d :: t ∧ '1' ≤ d ∧ d ≤ '9') : numOK l = true := by
  rcases h with h | ⟨d, t, h, h1, h2⟩
  · rw [h]; rfl
  · subst h
    cases t with
    | nil => simp [numOK, h1, h2]
    | cons c2 t2 => simp [numOK, h1, h2]

theorem takeWhile_digits_append {a r : List Char} (ha : ∀ c ∈ a, isDig c = true)
    (hr : ∀ c, r.head? = some c → isDig c = false) :
    (a ++ r).takeWhile isDig = a ∧ (a ++ r).dropWhile isDig = r := by
  induction a with
  | nil =>
    simp only [List.nil_append]
    cases r with
    | nil => simp
    | cons c t => simp [List.takeWhile_cons, List.dropWhile_cons, hr c rfl]
  | cons c t ih =>
    have hc := ha c (List.mem_cons_self _ _)
    have iht := ih (fun c2 hc2 => ha c2 (List.mem_cons_of_mem _ hc2))
    simp [List.takeWhile_cons, List.dropWhile_cons, hc, iht.1, iht.2]

theorem semverBody_forward {cs : List Char} (h : semverBody cs = true) :
    SemverBodyGrammar cs := by
  unfold semverBody at h
  rw [Bool.and_eq_true] at h
  obtain ⟨h1, h2⟩ := h
  cases hr1 : cs.dropWhile isDig with
  | nil => rw [hr1] at h2; simp at h2
  | cons c1 r2 =>
    rw [hr1] at h2
    have h2b : (c1 == '.' && (numOK (r2.takeWhile isDig) &&
        match r2.dropWhile isDig with
        | c2 :: r4 =>
          c2 == '.' && (numOK (r4.takeWhile isDig) &&
            match r4.dropWhile isDig with
            | [] => true
            | c3 :: t => (c3 == '-' || c3 == '+') &&
                (!t.isEmpty && t.all (fun ch => ch != '\n')))
        | [] => false)) = true := h2
    rw [Bool.and_eq_true] at h2b
    obtain ⟨hc1, h3⟩ := h2b
    rw [Bool.and_eq_true] at h3
    obtain ⟨hnb, h4⟩ := h3
    cases hr2 : r2.dropWhile isDig with
    | nil => rw [hr2] at h4; simp at h4
    | cons c2 r4 =>
      rw [hr2] at h4
      have h4b : (c2 == '.' && (numOK (r4.takeWhile isDig) &&
          match r4.dropWhile isDig with
          | [] => true
          | c3 :: t => (c3 == '-' || c3 == '+') &&
              (!t.isEmpty && t.all (fun ch => ch != '\n')))) = true := h4
      rw [Bool.and_eq_true] at h4b
      obtain ⟨hc2, h5⟩ := h4b
      rw [Bool.and_eq_true] at h5
      obtain ⟨hnc, h6⟩ := h5
      refine ⟨cs.takeWhile isDig, r2.takeWhile isDig, r4.takeWhile isDig,
        r4.dropWhile isDig, ?_, ?_, ?_, ?_, ?_⟩
      · conv_lhs => rw [← List.takeWhile_append_dropWhile isDig cs]
        rw [hr1]
        rw [show c1 = '.' from beq_iff_eq.mp hc1]
        congr 2
        conv_lhs => rw [← List.takeWhile_append_dropWhile isDig r2]
        rw [hr2]
        rw [show c2 = '.' from beq_iff_eq.mp hc2]
        congr 2
        exact (List.takeWhile_append_dropWhile isDig r4).symm
      · exact ⟨fun c hc => List.mem_takeWhile_imp hc, numOK_shape h1⟩
      · exact ⟨fun c hc => List.mem_takeWhile_imp hc, numOK_shape hnb⟩
      · exact ⟨fun c hc => List.mem_takeWhile_imp hc, numOK_shape hnc⟩
      · cases hr3 : r4.dropWhile isDig with
        | nil => exact Or.inl rfl
        | cons c3 t =>
          rw [hr3] at h6
          have h6b : ((c3 == '-' || c3 == '+') &&
              (!t.isEmpty && t.all (fun ch => ch != '\n'))) = true := h6
          rw [Bool.and_eq_true] at h6b
          obtain ⟨hm, ht⟩ := h6b
          rw [Bool.and_eq_true] at ht
          obtain ⟨ht1, ht2⟩ := ht
          refine Or.inr ⟨c3, t, rfl, ?_, ?_, ?_⟩
          · rw [Bool.or_eq_true] at hm
            rcases hm with hm | hm
            · exact Or.inl (beq_iff_eq.mp hm)
            · exact Or.inr (beq_iff_eq.mp hm)
          · intro hcon
            rw [hcon] at ht1
            simp at ht1
          · simp only [List.all_eq_true, bne_iff_ne] at ht2
            exact ht2

theorem semverBody_backward {cs : List Char} (h : SemverBodyGrammar cs) :
    semverBody cs = true := by
  obtain ⟨a, b, c, rest, hcs, hna, hnb, hnc, hsuf⟩ := h
  subst hcs
  have hrdot : ∀ (X : List Char) (ch : Char),
      ('.' :: X).head? = some ch → isDig ch = false := by
    intro X ch hch
    cases hch
    decide
  have hrrest : ∀ ch, rest.head? = some ch → isDig ch = false := by
    intro ch hch
    rcases hsuf with hs | ⟨m, t, hm, hmk, _, _⟩
    · rw [hs] at hch; cases hch
    · rw [hm] at hch
      cases hch
      rcases hmk with hmk | hmk <;> rw [hmk] <;> decide
  have h1 := takeWhile_digits_append hna.1 (hrdot (b ++ '.' :: (c ++ rest)))
  have h2 := takeWhile_digits_append hnb.1 (hrdot (c ++ rest))
  have h3 := takeWhile_digits_append hnc.1 hrrest
  unfold semverBody
  simp only [h1.1, h1.2, h2.1, h2.2, h3.1, h3.2]
  rw [Bool.and_eq_true]
  refine ⟨numOK_of_shape hna.2, ?_⟩
  show (('.' : Char) == '.' && _) = true
  rw [Bool.and_eq_true]
  refine ⟨by decide, ?_⟩
  rw [Bool.and_eq_true]
  refine ⟨numOK_of_shape hnb.2, ?_⟩
  show (('.' : Char) == '.' && _) = true
  rw [Bool.and_eq_true]
  refine ⟨by decide, ?_⟩
  rw [Bool.and_eq_true]
  refine ⟨numOK_of_shape hnc.2, ?_⟩
  rcases hsuf with hs | ⟨m, t, hm, hmk, ht, hnl⟩
  · rw [hs]
  · rw [hm]
    show ((m == '-' || m == '+') && (!t.isEmpty && t.all (fun ch => ch != '\n'))) = true
    rw [Bool.and_eq_true]
    refine ⟨?_, ?_⟩
    · rcases hmk with hmk | hmk <;> rw [hmk] <;> decide
    · rw [Bool.and_eq_true]
      refine ⟨?_, ?_⟩
      · cases t with
        | nil => exact absurd rfl ht
        | cons x xs => rfl
      · simp only [List.all_eq_true, bne_iff_ne]
        exact hnl

theorem getLast?_some_split {α : Type} {l : List α} {a : α}
    (h : l.getLast? = some a) : l = l.dropLast ++ [a] := by
  rcases List.eq_nil_or_concat l with h0 | ⟨l2, b, h0⟩
  · subst h0; cases h
  · subst h0
    rw [List.concat_eq_append] at h ⊢
    rw [List.getLast?_concat] at h
    injection h with h2
    subst h2
    rw [List.dropLast_concat]

theorem semverMatch_iff (cs : List Char) :
    semverMatchL cs = true ↔ PySemverAccepted cs := by
  unfold semverMatchL PySemverAccepted
  rw [Bool.or_eq_true]
  constructor
  · rintro (h | h)
    · exact Or.inl (semverBody_forward h)
    · cases hl : cs.getLast? with
      | none =>
        rw [hl] at h
        have hb : (false : Bool) = true := h
        cases hb
      | some c =>
        rw [hl] at h
        have hb : (c == '\n' && semverBody cs.dropLast) = true := h
        rw [Bool.and_eq_true] at hb
        obtain ⟨hc, hbody⟩ := hb
        rw [show c = '\n' from beq_iff_eq.mp hc] at hl
        exact Or.inr ⟨cs.dropLast, getLast?_some_split hl, semverBody_forward hbody⟩
  · rintro (h | ⟨cs2, hcs, h⟩)
    · exact Or.inl (semverBody_backward h)
    · subst hcs
      refine Or.inr ?_
      simp only [List.getLast?_concat]
      rw [List.dropLast_concat]
      rw [Bool.and_eq_true]
      exact ⟨by decide, semverBody_backward h⟩

/-- C6 counterexample: the string "1.2.3-a\nb" lies in the claim's
grammar (its suffix begins with `-` and continues with at least one
character), yet `SEMVER_RE` rejects it: `.` in the suffix group
`[-+].+` does not match the embedded newline, so the claimed
equivalence fails on this string. -/
theorem c6_counterexample :
    SemverGrammar ("1.2.3-a\nb".data)
    ∧ semverAccepts "1.2.3-a\nb" = false := by
  constructor
  · refine ⟨['1'], ['2'], ['3'], ['-', 'a', '\n', 'b'], by decide, ?_, ?_, ?_, ?_⟩
    · exact ⟨by decide, Or.inr ⟨'1', [], rfl, by decide, by decide⟩⟩
    · exact ⟨by decide, Or.inr ⟨'2', [], rfl, by decide, by decide⟩⟩
    · exact ⟨by decide, Or.inr ⟨'3', [], rfl, by decide, by decide⟩⟩
    · exact Or.inr ⟨'-', ['a', '\n', 'b'], rfl, Or.inl rfl, by decide⟩
  · decide

/-- C6 amended: on every ASCII string (the regex class `\d` also
matches non-ASCII Unicode decimal digits, which the matcher does not
model), `SEMVER_RE` accepts the string iff it — possibly after one
trailing newline is stripped, which the final `$` tolerates — consists
of three dot-separated decimal numerals with no leading zeros (except
"0" itself), optionally followed by a `-`/`+` marker and at least one
further character none of which is a newline.  The claim's five example
strings behave as stated, "1.2.3" followed by a newline is accepted,
and "1.2.3-a" with an embedded newline before "b" is rejected. -/
theorem c6_amended_thm :
    (∀ v : String, (∀ c ∈ v.data, c.toNat < 128) →
        (semverAccepts v = true ↔ PySemverAccepted v.data))
    ∧ semverAccepts "1.2.3" = true
    ∧ semverAccepts "0.1.0-beta" = true
    ∧ semverAccepts "1.2" = false
    ∧ semverAccepts "01.2.3" = false
    ∧ semverAccepts "1.2.3.4" = false
    ∧ semverAccepts "1.2.3\n" = true
    ∧ semverAccepts "1.2.3-a\nb" = false := by
  refine ⟨fun v _ => semverMatch_iff v.data, by decide, by decide, by decide,
    by decide, by decide, by decide, by decide⟩

/-- The amended C6 equivalence applied at the concrete ASCII string
"0.1.0-beta". -/
theorem c6_amended_witness :
    semverAccepts "0.1.0-beta" = true ↔ PySemverAccepted "0.1.0-beta".data :=
  c6_amended_thm.1 "0.1.0-beta" (by decide)

/-! ### C8: the drift detector -/

/-- The contribution of the first `compare` loop, in iteration order. -/
def drift1 (actual : List (String × JObj)) : List (String × JObj) → List (String × DriftItem)
  | [] => []
  | (n, d) :: rest =>
    (match jLookup actual n with
     | none => [(n, ⟨"missing_in_actual", none, none⟩)]
     | some a =>
       if pyEq (normalize ((jLookup d "settings").getD (.obj [])))
               (normalize ((jLookup a "settings").getD (.obj []))) then []
       else [(n, ⟨"settings_drift",
               some (normalize ((jLookup d "settings").getD (.obj []))),
               some (normalize ((jLookup a "settings").getD (.obj [])))⟩)])
      ++ drift1 actual rest

/-- The contribution of the second `compare` loop, in iteration order. -/
def drift2 (desired : List (String × JObj)) : List (String × JObj) → List (String × DriftItem)
  | [] => []
  | (n, _) :: rest =>
    (match jLookup desired n with
     | none => [(n, ⟨"extra_in_actual", none, none⟩)]
     | some _ => []) ++ drift2 desired rest

theorem foldD_eq (actual : List (String × JObj)) (ds : List (String × JObj)) :
    ∀ (acc : List (String × DriftItem)) (r : Nat),
      ds.foldl (compareStepD actual) (acc, r)
        = (acc ++ drift1 actual ds, if (drift1 actual ds).isEmpty then r else 1) := by
  induction ds with
  | nil => intro acc r; simp [drift1]
  | cons nd rest ih =>
    intro acc r
    obtain ⟨n, d⟩ := nd
    rw [List.foldl_cons]
    cases hn : jLookup actual n with
    | none =>
      simp only [compareStepD, drift1, hn]
      rw [ih]
      simp [List.append_assoc]
    | some a =>
      cases hpy : pyEq (normalize ((jLookup d "settings").getD (.obj [])))
          (normalize ((jLookup a "settings").getD (.obj []))) with
      | true =>
        simp only [compareStepD, drift1, hn, hpy, if_true]
        rw [ih]
        simp
      | false =>
        simp only [compareStepD, drift1, hn, hpy, Bool.false_eq_true, if_false]
        rw [ih]
        simp [List.append_assoc]

theorem foldE_eq (desired : List (String × JObj)) (as : List (String × JObj)) :
    ∀ (acc : List (String × DriftItem)) (r : Nat),
      as.foldl (compareStepE desired) (acc, r)
        = (acc ++ drift2 desired as, if (drift2 desired as).isEmpty then r else 1) := by
  induction as with
  | nil => intro acc r; simp [drift2]
  | cons na rest ih =>
    intro acc r
    obtain ⟨n, a⟩ := na
    rw [List.foldl_cons]
    cases hn : jLookup desired n with
    | none =>
      simp only [compareStepE, drift2, hn]
      rw [ih]
      simp [List.append_assoc]
    | some d =>
      simp only [compareStepE, drift2, hn]
      rw [ih]
      simp

theorem compare_eq (desired actual : List (String × JObj)) :
    compare desired actual =
      (drift1 actual desired ++ drift2 desired actual,
       if (drift1 actual desired ++ drift2 desired actual).isEmpty then 0 else 1) := by
  unfold compare
  rw [foldD_eq, foldE_eq]
  simp only [List.nil_append]
  congr 1
  cases h1 : (drift1 actual desired).isEmpty with
  | true =>
    have h1e : drift1 actual desired = [] := List.isEmpty_iff.mp h1
    rw [h1e]
    simp
  | false =>
    have h1e : drift1 actual desired ≠ [] := by
      intro hc
      rw [hc] at h1
      simp at h1
    have : (drift1 actual desired ++ drift2 desired actual).isEmpty = false := by
      cases hd : drift1 actual desired with
      | nil => exact absurd hd h1e
      | cons x xs => simp [hd]
    cases h2 : (drift2 desired actual).isEmpty <;> simp [this]

theorem jLookup_none_of_not_mem {α : Type} {l : List (String × α)} {n : String}
    (h : ∀ kv ∈ l, kv.1 ≠ n) : jLookup l n = none := by
  induction l with
  | nil => rfl
  | cons kv rest ih =>
    obtain ⟨k, v⟩ := kv
    have hk := h (k, v) (List.mem_cons_self _ _)
    simp only [jLookup, if_neg hk]
    exact ih (fun kv2 hkv2 => h kv2 (List.mem_cons_of_mem _ hkv2))

theorem jLookup_append_some {α : Type} {l1 : List (String × α)} (l2 : List (String × α))
    {n : String} {v : α} (h : jLookup l1 n = some v) :
    jLookup (l1 ++ l2) n = some v := by
  induction l1 with
  | nil => simp [jLookup] at h
  | cons kv rest ih =>
    obtain ⟨k, w⟩ := kv
    simp only [jLookup] at h ⊢
    by_cases hk : k = n
    · rw [if_pos hk] at h ⊢; exact h
    · rw [if_neg hk] at h ⊢; exact ih h

theorem jLookup_append_none {α : Type} {l1 : List (String × α)} (l2 : List (String × α))
    {n : String} (h : jLookup l1 n = none) :
    jLookup (l1 ++ l2) n = jLookup l2 n := by
  induction l1 with
  | nil => rfl
  | cons kv rest ih =>
    obtain ⟨k, w⟩ := kv
    simp only [jLookup] at h ⊢
    by_cases hk : k = n
    · rw [if_pos hk] at h; cases h
    · rw [if_neg hk] at h ⊢; exact ih h

theorem drift1_lookup_notmem (actual : List (String × JObj))
    (ds : List (String × JObj)) {n : String} (h : jLookup ds n = none) :
    jLookup (drift1 actual ds) n = none := by
  induction ds with
  | nil => rfl
  | cons nd rest ih =>
    obtain ⟨m, d⟩ := nd
    simp only [jLookup] at h
    by_cases hm : m = n
    · rw [if_pos hm] at h; cases h
    · rw [if_neg hm] at h
      have hhead : ∀ (part : List (String × DriftItem)),
          (∀ kv ∈ part, kv.1 = m) → jLookup (part ++ drift1 actual rest) n = none := by
        intro part hpart
        rw [jLookup_append_none]
        · exact ih h
        · exact jLookup_none_of_not_mem (fun kv hkv => by rw [hpart kv hkv]; exact hm)
      cases hn : jLookup actual m with
      | none =>
        simp only [drift1, hn]
        exact hhead _ (by intro kv hkv; simp at hkv; subst hkv; rfl)
      | some a =>
        cases hpy : pyEq (normalize ((jLookup d "settings").getD (.obj [])))
            (normalize ((jLookup a "settings").getD (.obj []))) with
        | true =>
          simp only [drift1, hn, hpy, if_true]
          exact hhead [] (by intro kv hkv; simp at hkv)
        | false =>
          simp only [drift1, hn, hpy, Bool.false_eq_true, if_false]
          exact hhead _ (by intro kv hkv; simp at hkv; subst hkv; rfl)

theorem drift1_lookup (actual : List (String × JObj)) (ds : List (String × JObj))
    {n : String} {d : JObj} (hnd : (ds.map Prod.fst).Nodup)
    (hd : jLookup ds n = some d) :
    jLookup (drift1 actual ds) n =
      (match jLookup actual n with
       | none => some ⟨"missing_in_actual", none, none⟩
       | some a =>
         if pyEq (normalize ((jLookup d "settings").getD (.obj [])))
                 (normalize ((jLookup a "settings").getD (.obj []))) then none
         else some ⟨"settings_drift",
                some (normalize ((jLookup d "settings").getD (.obj []))),
                some (normalize ((jLookup a "settings").getD (.obj [])))⟩) := by
  induction ds with
  | nil => simp [jLookup] at hd
  | cons nd rest ih =>
    obtain ⟨m, dm⟩ := nd
    simp only [List.map_cons, List.nodup_cons] at hnd
    simp only [jLookup] at hd
    by_cases hm : m = n
    · subst hm
      rw [if_pos rfl] at hd
      cases hd
      have hrest : jLookup rest m = none := by
        apply jLookup_none_of_not_mem
        intro kv hkv hkc
        exact hnd.1 (hkc ▸ List.mem_map_of_mem Prod.fst hkv)
      cases hn : jLookup actual m with
      | none =>
        simp only [drift1, hn]
        rw [jLookup_append_some]
        simp [jLookup]
      | some a =>
        cases hpy : pyEq (normalize ((jLookup d "settings").getD (.obj [])))
            (normalize ((jLookup a "settings").getD (.obj []))) with
        | true =>
          simp only [drift1, hn, hpy, if_true]
          simp only [List.nil_append]
          exact drift1_lookup_notmem actual rest hrest
        | false =>
          simp only [drift1, hn, hpy, Bool.false_eq_true, if_false]
          rw [jLookup_append_some]
          simp [jLookup]
    · rw [if_neg hm] at hd
      have hstep : jLookup (drift1 actual ((m, dm) :: rest)) n
          = jLookup (drift1 actual rest) n := by
        have hhead : ∀ (part : List (String × DriftItem)),
            (∀ kv ∈ part, kv.1 = m) →
            jLookup (part ++ drift1 actual rest) n = jLookup (drift1 actual rest) n := by
          intro part hpart
          apply jLookup_append_none
          exact jLookup_none_of_not_mem (fun kv hkv => by rw [hpart kv hkv]; exact hm)
        cases hn : jLookup actual m with
        | none =>
          simp only [drift1, hn]
          exact hhead _ (by intro kv hkv; simp at hkv; subst hkv; rfl)
        | some a =>
          cases hpy : pyEq (normalize ((jLookup dm "settings").getD (.obj [])))
              (normalize ((jLookup a "settings").getD (.obj []))) with
          | true =>
            simp only [drift1, hn, hpy, if_true]
            exact hhead [] (by intro kv hkv; simp at hkv)
          | false =>
            simp only [drift1, hn, hpy, Bool.false_eq_true, if_false]
            exact hhead _ (by intro kv hkv; simp at hkv; subst hkv; rfl)
      rw [hstep]
      exact ih hnd.2 hd

theorem drift2_lookup_extra (desired : List (String × JObj))
    (as : List (String × JObj)) {n : String} {a : JObj}
    (ha : jLookup as n = some a) (hd : jLookup desired n = none) :
    jLookup (drift2 desired as) n = some ⟨"extra_in_actual", none, none⟩ := by
  induction as with
  | nil => simp [jLookup] at ha
  | cons na rest ih =>
    obtain ⟨m, am⟩ := na
    simp only [jLookup] at ha
    by_cases hm : m = n
    · subst hm
      simp only [drift2, hd]
      rw [jLookup_append_some]
      simp [jLookup]
    · rw [if_neg hm] at ha
      have hskip : ∀ (part : List (String × DriftItem)),
          (∀ kv ∈ part, kv.1 = m) →
          jLookup (part ++ drift2 desired rest) n = jLookup (drift2 desired rest) n := by
        intro part hpart
        apply jLookup_append_none
        exact jLookup_none_of_not_mem (fun kv hkv => by rw [hpart kv hkv]; exact hm)
      cases hdm : jLookup desired m with
      | none =>
        simp only [drift2, hdm]
        rw [hskip _ (by intro kv hkv; simp at hkv; subst hkv; rfl)]
        exact ih ha
      | some d2 =>
        simp only [drift2, hdm]
        rw [hskip [] (by intro kv hkv; simp at hkv)]
        exact ih ha

theorem drift2_lookup_none (desired : List (String × JObj))
    (as : List (String × JObj)) {n : String} {d : JObj}
    (hd : jLookup desired n = some d) :
    jLookup (drift2 desired as) n = none := by
  induction as with
  | nil => rfl
  | cons na rest ih =>
    obtain ⟨m, am⟩ := na
    by_cases hm : m = n
    · subst hm
      simp only [drift2, hd]
      simp only [List.nil_append]
      exact ih
    · have hskip : ∀ (part : List (String × DriftItem)),
          (∀ kv ∈ part, kv.1 = m) →
          jLookup (part ++ drift2 desired rest) n = jLookup (drift2 desired rest) n := by
        intro part hpart
        apply jLookup_append_none
        exact jLookup_none_of_not_mem (fun kv hkv => by rw [hpart kv hkv]; exact hm)
      cases hdm : jLookup desired m with
      | none =>
        simp only [drift2, hdm]
        rw [hskip _ (by intro kv hkv; simp at hkv; subst hkv; rfl)]
        exact ih
      | some d2 =>
        simp only [drift2, hdm]
        rw [hskip [] (by intro kv hkv; simp at hkv)]
        exact ih

/-- C8: the drift detector.  For desired/actual mappings keyed by policy
name (desired keys duplicate-free, as Python dicts are): a desired name
absent from actual maps to `missing_in_actual`; a name on both sides
whose settings differ after normalization maps to `settings_drift`
carrying both normalized snapshots; an actual name absent from desired
maps to `extra_in_actual`; a name on both sides with equal normalized
settings gets no entry; the return code is 0 iff the drift mapping is
empty; and normalization makes dict key order irrelevant while list
order stays significant. -/
theorem c8_drift_detector (desired actual : List (String × JObj))
    (hnd : (desired.map Prod.fst).Nodup) :
    (∀ n d, jLookup desired n = some d → jLookup actual n = none →
       jLookup (compare desired actual).1 n = some ⟨"missing_in_actual", none, none⟩)
    ∧ (∀ n d a, jLookup desired n = some d → jLookup actual n = some a →
       pyEq (normalize ((jLookup d "settings").getD (.obj [])))
            (normalize ((jLookup a "settings").getD (.obj []))) = false →
       jLookup (compare desired actual).1 n =
         some ⟨"settings_drift",
           some (normalize ((jLookup d "settings").getD (.obj []))),
           some (normalize ((jLookup a "settings").getD (.obj [])))⟩)
    ∧ (∀ n a, jLookup desired n = none → jLookup actual n = some a →
       jLookup (compare desired actual).1 n = some ⟨"extra_in_actual", none, none⟩)
    ∧ (∀ n d a, jLookup desired n = some d → jLookup actual n = some a →
       pyEq (normalize ((jLookup d "settings").getD (.obj [])))
            (normalize ((jLookup a "settings").getD (.obj []))) = true →
       jLookup (compare desired actual).1 n = none)
    ∧ ((compare desired actual).2 = 0 ↔ (compare desired actual).1 = [])
    ∧ pyEq (normalize (.obj [("a", .num 1), ("b", .num 2)]))
           (normalize (.obj [("b", .num 2), ("a", .num 1)])) = true
    ∧ pyEq (normalize (.list [.num 1, .num 2]))
           (normalize (.list [.num 2, .num 1])) = false := by
  refine ⟨?_, ?_, ?_, ?_, ?_, ?_, ?_⟩
  · intro n d hd ha
    have h1 := drift1_lookup actual desired hnd hd
    simp only [ha] at h1
    simp only [compare_eq]
    exact jLookup_append_some _ h1
  · intro n d a hd ha hpy
    have h1 := drift1_lookup actual desired hnd hd
    simp only [ha, hpy, Bool.false_eq_true, if_false] at h1
    simp only [compare_eq]
    exact jLookup_append_some _ h1
  · intro n a hd ha
    have h1 := drift1_lookup_notmem actual desired hd
    simp only [compare_eq]
    rw [jLookup_append_none _ h1]
    exact drift2_lookup_extra desired actual ha hd
  · intro n d a hd ha hpy
    have h1 := drift1_lookup actual desired hnd hd
    simp only [ha, hpy, if_true] at h1
    simp only [compare_eq]
    rw [jLookup_append_none _ h1]
    exact drift2_lookup_none desired actual hd
  · simp only [compare_eq]
    cases hE : (drift1 actual desired ++ drift2 desired actual).isEmpty with
    | true => simp [List.isEmpty_iff.mp hE]
    | false =>
      have hne : drift1 actual desired ++ drift2 desired actual ≠ [] := by
        intro hc
        rw [hc] at hE
        simp at hE
      simp [hne]
  · simp [normalize, normEntries, normList, sortKeys, insSorted, keyLt, ltChars,
      pyEq, pyEqEntries, pyEqFind, pyEqList]
  · simp [normalize, normEntries, normList, sortKeys, insSorted, keyLt, ltChars,
      pyEq, pyEqEntries, pyEqFind, pyEqList]

/-- Desired mapping for the C8 witness. -/
def D8des : List (String × JObj) :=
  [("x", [("settings", .obj [("a", .num 1), ("b", .num 2)])]),
   ("gone", [("settings", .obj [])])]

/-- Actual snapshot for the C8 witness: "x" has the same settings in a
different key order, "gone" is missing, "extra" is unexpected. -/
def D8act : List (String × JObj) :=
  [("x", [("settings", .obj [("b", .num 2), ("a", .num 1)])]),
   ("extra", [("settings", .obj [])])]

/-- C8 witness at a concrete desired/actual pair. -/
theorem c8_witness :
    jLookup (compare D8des D8act).1 "gone" = some ⟨"missing_in_actual", none, none⟩
    ∧ jLookup (compare D8des D8act).1 "extra" = some ⟨"extra_in_actual", none, none⟩
    ∧ jLookup (compare D8des D8act).1 "x" = none := by
  have h := c8_drift_detector D8des D8act (by decide)
  refine ⟨h.1 "gone" [("settings", .obj [])] rfl rfl,
    h.2.2.1 "extra" [("settings", .obj [])] rfl rfl,
    h.2.2.2.1 "x" [("settings", .obj [("a", .num 1), ("b", .num 2)])]
      [("settings", .obj [("b", .num 2), ("a", .num 1)])] rfl rfl ?_⟩
  simp [jLookup, normalize, normEntries, normList, sortKeys, insSorted, keyLt, ltChars,
    pyEq, pyEqEntries, pyEqFind, pyEqList]

end CWTLM
